import Mathlib

/-!
Verification of the BLOCK device driver (block_driver.c) and its frame cache
(block_cache.c) against the natural-language specification.  The C sources are
shallowly embedded: C `int` values are modelled as `Int` (the claims operate in
ranges where 32-bit overflow cannot occur), unsigned machine integers as `Nat`
with explicit reductions `% 2^w` wherever the C code performs a narrowing
conversion, byte buffers as functions `Nat → Nat`, and the statically allocated
tables as functions from indices.
-/

namespace BlockDriver

/-- Frame size in bytes: `BLOCK_FRAME_SIZE` (4096, as fixed by the 4096-byte
frame buffers of the cache and the data model of the spec). -/
def BLOCK_FRAME_SIZE : Nat := 4096

/-- Source: `pack` in block_driver.c.
C: `return ((uint64_t)ky1 << 56 | (uint64_t)fm1 << 40 | (uint64_t)cs1 << 8 | rt1);`
The parameters are `uint32_t` (hence the `% 4294967296`), the arithmetic is
performed in `uint64_t` (hence the `% 18446744073709551616` after each shift). -/
def pack (ky1 fm1 cs1 rt1 : Nat) : Nat :=
  ((((ky1 % 4294967296) <<< 56) % 18446744073709551616) |||
    (((fm1 % 4294967296) <<< 40) % 18446744073709551616)) |||
   ((((cs1 % 4294967296) <<< 8) % 18446744073709551616) |||
    (rt1 % 4294967296))

/-- Source: `unpack` in block_driver.c, first output: `*ky1 = reg >> 56;`
(`reg` is `uint64_t`, the destination is `uint32_t`). -/
def unpack_ky (reg : Nat) : Nat :=
  ((reg % 18446744073709551616) >>> 56) % 4294967296

/-- Source: `unpack`, second output: `*fm1 = (reg << 8) >> 48;`. -/
def unpack_fm (reg : Nat) : Nat :=
  ((((reg % 18446744073709551616) <<< 8) % 18446744073709551616) >>> 48) % 4294967296

/-- Source: `unpack`, third output: `*cs1 = (reg << 24) >> 32;`. -/
def unpack_cs (reg : Nat) : Nat :=
  ((((reg % 18446744073709551616) <<< 24) % 18446744073709551616) >>> 32) % 4294967296

/-- Source: `unpack`, fourth output: `*rt1 = (reg << 56) >> 56;`. -/
def unpack_rt (reg : Nat) : Nat :=
  ((((reg % 18446744073709551616) <<< 56) % 18446744073709551616) >>> 56) % 4294967296

/-- Source: `unpack` in block_driver.c, returning the four decoded fields. -/
def unpack (reg : Nat) : Nat × Nat × Nat × Nat :=
  (unpack_ky reg, unpack_fm reg, unpack_cs reg, unpack_rt reg)

/-- With in-range fields the packed register is the plain positional sum: the
four bit fields are disjoint, so the bitwise ors collapse to additions. -/
theorem pack_eq_add (ky fm cs rt : Nat)
    (hk : ky < 256) (hf : fm < 65536) (hc : cs < 4294967296) (hr : rt < 256) :
    pack ky fm cs rt =
      ky * 72057594037927936 + fm * 1099511627776 + cs * 256 + rt := by
  have hk32 : ky % 4294967296 = ky := Nat.mod_eq_of_lt (by omega)
  have hf32 : fm % 4294967296 = fm := Nat.mod_eq_of_lt (by omega)
  have hc32 : cs % 4294967296 = cs := Nat.mod_eq_of_lt (by omega)
  have hr32 : rt % 4294967296 = rt := Nat.mod_eq_of_lt (by omega)
  unfold pack
  rw [hk32, hf32, hc32, hr32, Nat.shiftLeft_eq, Nat.shiftLeft_eq, Nat.shiftLeft_eq]
  have e56 : (2 : Nat) ^ 56 = 72057594037927936 := by norm_num
  have e40 : (2 : Nat) ^ 40 = 1099511627776 := by norm_num
  have e8 : (2 : Nat) ^ 8 = 256 := by norm_num
  rw [e56, e40, e8]
  have m1 : ky * 72057594037927936 % 18446744073709551616 = ky * 72057594037927936 :=
    Nat.mod_eq_of_lt (by omega)
  have m2 : fm * 1099511627776 % 18446744073709551616 = fm * 1099511627776 :=
    Nat.mod_eq_of_lt (by omega)
  have m3 : cs * 256 % 18446744073709551616 = cs * 256 :=
    Nat.mod_eq_of_lt (by omega)
  rw [m1, m2, m3]
  have h1 : cs * 256 ||| rt = cs * 256 + rt := by
    have := Nat.mul_add_lt_is_or (i := 8) (b := rt) (by omega) cs
    rw [Nat.mul_comm (2 ^ 8) cs] at this
    norm_num at this
    omega
  have h2 : fm * 1099511627776 ||| (cs * 256 + rt) = fm * 1099511627776 + (cs * 256 + rt) := by
    have := Nat.mul_add_lt_is_or (i := 40) (b := cs * 256 + rt) (by omega) fm
    rw [Nat.mul_comm (2 ^ 40) fm] at this
    norm_num at this
    omega
  have h3 : ky * 72057594037927936 ||| (fm * 1099511627776 + (cs * 256 + rt)) =
      ky * 72057594037927936 + (fm * 1099511627776 + (cs * 256 + rt)) := by
    have := Nat.mul_add_lt_is_or (i := 56) (b := fm * 1099511627776 + (cs * 256 + rt))
      (by omega) ky
    rw [Nat.mul_comm (2 ^ 56) ky] at this
    norm_num at this
    omega
  rw [Nat.lor_assoc, h1, h2, h3]
  omega

/-- Field recovery: the opcode field of a packed in-range register. -/
theorem unpack_ky_pack (ky fm cs rt : Nat)
    (hk : ky < 256) (hf : fm < 65536) (hc : cs < 4294967296) (hr : rt < 256) :
    unpack_ky (pack ky fm cs rt) = ky := by
  rw [pack_eq_add ky fm cs rt hk hf hc hr]
  unfold unpack_ky
  rw [Nat.shiftRight_eq_div_pow]
  have e56 : (2 : Nat) ^ 56 = 72057594037927936 := by norm_num
  rw [e56]
  omega

/-- Field recovery: the frame-index field of a packed in-range register. -/
theorem unpack_fm_pack (ky fm cs rt : Nat)
    (hk : ky < 256) (hf : fm < 65536) (hc : cs < 4294967296) (hr : rt < 256) :
    unpack_fm (pack ky fm cs rt) = fm := by
  rw [pack_eq_add ky fm cs rt hk hf hc hr]
  unfold unpack_fm
  rw [Nat.shiftLeft_eq, Nat.shiftRight_eq_div_pow]
  have e8 : (2 : Nat) ^ 8 = 256 := by norm_num
  have e48 : (2 : Nat) ^ 48 = 281474976710656 := by norm_num
  rw [e8, e48]
  omega

/-- Field recovery: the checksum field of a packed in-range register. -/
theorem unpack_cs_pack (ky fm cs rt : Nat)
    (hk : ky < 256) (hf : fm < 65536) (hc : cs < 4294967296) (hr : rt < 256) :
    unpack_cs (pack ky fm cs rt) = cs := by
  rw [pack_eq_add ky fm cs rt hk hf hc hr]
  unfold unpack_cs
  rw [Nat.shiftLeft_eq, Nat.shiftRight_eq_div_pow]
  have e24 : (2 : Nat) ^ 24 = 16777216 := by norm_num
  have e32 : (2 : Nat) ^ 32 = 4294967296 := by norm_num
  rw [e24, e32]
  omega

/-- Field recovery: the return-code field of a packed in-range register. -/
theorem unpack_rt_pack (ky fm cs rt : Nat)
    (hk : ky < 256) (hf : fm < 65536) (hc : cs < 4294967296) (hr : rt < 256) :
    unpack_rt (pack ky fm cs rt) = rt := by
  rw [pack_eq_add ky fm cs rt hk hf hc hr]
  unfold unpack_rt
  rw [Nat.shiftLeft_eq, Nat.shiftRight_eq_div_pow]
  have e56 : (2 : Nat) ^ 56 = 72057594037927936 := by norm_num
  rw [e56]
  omega

/-- C9: for every opcode value fitting in 8 bits, frame index fitting in 16
bits, checksum fitting in 32 bits and return code fitting in 8 bits,
`unpack (pack ky fm cs rt)` yields back exactly those four field values:
packing and unpacking are bit-exact and lossless. -/
theorem C9_register_roundtrip (ky fm cs rt : Nat)
    (hk : ky < 256) (hf : fm < 65536) (hc : cs < 4294967296) (hr : rt < 256) :
    unpack (pack ky fm cs rt) = (ky, fm, cs, rt) := by
  unfold unpack
  rw [unpack_ky_pack ky fm cs rt hk hf hc hr, unpack_fm_pack ky fm cs rt hk hf hc hr,
    unpack_cs_pack ky fm cs rt hk hf hc hr, unpack_rt_pack ky fm cs rt hk hf hc hr]

/-- Witness for C9 at a concrete in-range input. -/
theorem C9_register_roundtrip_witness :
    5 < 256 ∧ 777 < 65536 ∧ 3000000000 < 4294967296 ∧ 9 < 256 ∧
      unpack (pack 5 777 3000000000 9) = (5, 777, 3000000000, 9) :=
  ⟨by norm_num, by norm_num, by norm_num, by norm_num,
    C9_register_roundtrip 5 777 3000000000 9 (by norm_num) (by norm_num)
      (by norm_num) (by norm_num)⟩

/-- Source: `struct CacheNode` in block_cache.c, with the 4096-byte `nbuf`
abstracted over the buffer content type: a copy of the whole buffer is what
`memcpy(.., .., 4096)` performs. -/
structure CacheNode (α : Type) where
  nBlock : Nat
  nFrm : Nat
  nbuf : α
  deriving DecidableEq

/-- Source: `struct Cache` in block_cache.c: the explicit size counter and the
singly linked node list headed by `head` (most recent first). -/
structure Cache (α : Type) where
  currentSize : Nat
  nodes : List (CacheNode α)
  deriving DecidableEq

/-- Source: `init_block_cache` in block_cache.c: a fresh cache with
`currentSize = 0` and `head = NULL`. -/
def init_block_cache (α : Type) : Cache α :=
  { currentSize := 0, nodes := [] }

/-- Helper modelling the list-splice scans of `put_block_cache`: both the
at-capacity scan (`iter->next->nFrm != frm`) and the general scan
(`iter->nFrm != frm`) locate the first node of the tail whose frame index
matches and unlink it (`previter->next = popVal->next`).  Returns that node and
the remaining list, or `none` when no node matches. -/
def extractByFrm {α : Type} (frm : Nat) : List (CacheNode α) → Option (CacheNode α × List (CacheNode α))
  | [] => none
  | n :: rest =>
    if n.nFrm = frm then some (n, rest)
    else
      match extractByFrm frm rest with
      | some (m, rest2) => some (m, n :: rest2)
      | none => none

/-- Source: `put_block_cache` in block_cache.c.  The four branches follow the C
code in order: empty cache, singleton cache, cache at the configured maximum,
and the general case.  The `match c.nodes with | [] => c` arms model the
undefined null-head dereference (respectively the use of the uninitialized
`previter` when the at-capacity list is a singleton); they are unreachable
whenever `currentSize` equals the list length.  The guarded
`if (popVal->nbuf != buf) memcpy(...)` is modelled as an unconditional content
copy, which is semantically identical. -/
def put_block_cache {α : Type} (maxItems blk frm : Nat) (buf : α) (c : Cache α) : Cache α :=
  if c.currentSize = 0 then
    { currentSize := c.currentSize + 1, nodes := [⟨blk, frm, buf⟩] }
  else if c.currentSize = 1 then
    match c.nodes with
    | [] => c
    | h :: t =>
      if h.nFrm = frm then
        { currentSize := c.currentSize, nodes := ⟨h.nBlock, h.nFrm, buf⟩ :: t }
      else
        { currentSize := c.currentSize + 1, nodes := ⟨blk, frm, buf⟩ :: h :: t }
  else if c.currentSize = maxItems then
    match c.nodes with
    | [] => c
    | h :: t =>
      if h.nFrm = frm then
        { currentSize := c.currentSize, nodes := ⟨h.nBlock, h.nFrm, buf⟩ :: t }
      else
        match extractByFrm frm t with
        | some (m, t2) =>
          { currentSize := c.currentSize, nodes := ⟨m.nBlock, m.nFrm, buf⟩ :: h :: t2 }
        | none =>
          match t with
          | [] => c
          | _ :: _ =>
            { currentSize := c.currentSize, nodes := ⟨blk, frm, buf⟩ :: (h :: t).dropLast }
  else
    match c.nodes with
    | [] => c
    | h :: t =>
      if h.nFrm = frm then
        { currentSize := c.currentSize, nodes := ⟨h.nBlock, h.nFrm, buf⟩ :: t }
      else
        match extractByFrm frm t with
        | some (m, t2) =>
          { currentSize := c.currentSize, nodes := ⟨m.nBlock, m.nFrm, buf⟩ :: h :: t2 }
        | none =>
          { currentSize := c.currentSize + 1, nodes := ⟨blk, frm, buf⟩ :: h :: t }

/-- Source: the walk of `get_block_cache`: check the current node, advance
while a next node exists and the current one does not match. -/
def getWalk {α : Type} (frm : Nat) : List (CacheNode α) → Option α
  | [] => none
  | [n] => if n.nFrm = frm then some n.nbuf else none
  | n :: m :: rest => if n.nFrm = frm then some n.nbuf else getWalk frm (m :: rest)

/-- Source: `get_block_cache` in block_cache.c.  The `block` parameter is
accepted but never compared, exactly as in the source; the function performs no
store, so it returns only the looked-up content. -/
def get_block_cache {α : Type} (blk frm : Nat) (c : Cache α) : Option α :=
  getWalk frm c.nodes

/-- Cache call: either an insert/update or a lookup, for reasoning about call
sequences against the cache API. -/
inductive CacheOp (α : Type) where
  | putOp (blk frm : Nat) (buf : α)
  | getOp (blk frm : Nat)
  deriving DecidableEq

/-- Whether a cache call is a lookup. -/
def CacheOp.isGet {α : Type} : CacheOp α → Bool
  | .putOp _ _ _ => false
  | .getOp _ _ => true

/-- Runs a sequence of cache calls.  A `putOp` applies `put_block_cache`; a
`getOp` leaves the state as is, because `get_block_cache` performs no store in
the source. -/
def runOps {α : Type} (maxItems : Nat) : List (CacheOp α) → Cache α → Cache α
  | [], c => c
  | CacheOp.putOp blk frm buf :: rest, c =>
    runOps maxItems rest (put_block_cache maxItems blk frm buf c)
  | CacheOp.getOp _ _ :: rest, c => runOps maxItems rest c

/-- Structural invariant of the cache: the size counter agrees with the list
length and no two nodes carry the same frame index. -/
def CacheWF {α : Type} (c : Cache α) : Prop :=
  c.currentSize = c.nodes.length ∧ (c.nodes.map CacheNode.nFrm).Nodup

/-- Characterization of a failed splice scan: no node of the list matches. -/
theorem extractByFrm_eq_none {α : Type} (frm : Nat) (t : List (CacheNode α)) :
    extractByFrm frm t = none ↔ ∀ n ∈ t, n.nFrm ≠ frm := by
  induction t with
  | nil => simp [extractByFrm]
  | cons n rest ih =>
    constructor
    · intro he m hm hc
      by_cases hn : n.nFrm = frm
      · simp [extractByFrm, hn] at he
      · simp only [extractByFrm, if_neg hn] at he
        cases hr : extractByFrm frm rest with
        | some p => rw [hr] at he; simp at he
        | none =>
          rcases List.mem_cons.mp hm with rfl | hm2
          · exact hn hc
          · exact (ih.mp hr) m hm2 hc
    · intro hall
      have hn : ¬n.nFrm = frm := hall n (List.mem_cons_self n rest)
      have hr : extractByFrm frm rest = none :=
        ih.mpr (fun m hm => hall m (List.mem_cons_of_mem _ hm))
      simp [extractByFrm, hn, hr]

/-- Characterization of a successful splice scan: the extracted node matches
the frame index and the original tail is a permutation of the node consed onto
the remaining list. -/
theorem extractByFrm_spec {α : Type} (frm : Nat) :
    ∀ (t : List (CacheNode α)) (m : CacheNode α) (t2 : List (CacheNode α)),
      extractByFrm frm t = some (m, t2) → m.nFrm = frm ∧ t.Perm (m :: t2) := by
  intro t
  induction t with
  | nil => intro m t2 h; simp [extractByFrm] at h
  | cons n rest ih =>
    intro m t2 h
    by_cases hn : n.nFrm = frm
    · simp only [extractByFrm, if_pos hn, Option.some.injEq, Prod.mk.injEq] at h
      obtain ⟨rfl, rfl⟩ := h
      exact ⟨hn, List.Perm.refl _⟩
    · simp only [extractByFrm, if_neg hn] at h
      cases hr : extractByFrm frm rest with
      | none => rw [hr] at h; cases h
      | some p =>
        obtain ⟨m2, rest2⟩ := p
        rw [hr] at h
        simp only [Option.some.injEq, Prod.mk.injEq] at h
        obtain ⟨he1, he2⟩ := h
        subst he2
        subst he1
        obtain ⟨h1, h2⟩ := ih m2 rest2 hr
        exact ⟨h1, List.Perm.trans (List.Perm.cons n h2) (List.Perm.swap m2 n rest2)⟩

/-- Case analysis for `put_block_cache` on a well-formed cache: the call either
updates the head in place, moves the first matching tail node to the front with
fresh content, evicts the tail (only at capacity with at least two entries), or
inserts a fresh most-recent entry. -/
theorem put_block_cache_shape {α : Type} (maxItems blk frm : Nat) (buf : α) (c : Cache α)
    (hWF : CacheWF c) :
    (∃ h t, c.nodes = h :: t ∧ h.nFrm = frm ∧
      put_block_cache maxItems blk frm buf c =
        { currentSize := c.currentSize, nodes := ⟨h.nBlock, h.nFrm, buf⟩ :: t }) ∨
    (∃ h t m t2, c.nodes = h :: t ∧ h.nFrm ≠ frm ∧ extractByFrm frm t = some (m, t2) ∧
      put_block_cache maxItems blk frm buf c =
        { currentSize := c.currentSize, nodes := ⟨m.nBlock, m.nFrm, buf⟩ :: h :: t2 }) ∨
    ((∀ n ∈ c.nodes, n.nFrm ≠ frm) ∧ c.currentSize = maxItems ∧ 2 ≤ c.currentSize ∧
      put_block_cache maxItems blk frm buf c =
        { currentSize := c.currentSize, nodes := ⟨blk, frm, buf⟩ :: c.nodes.dropLast }) ∨
    ((∀ n ∈ c.nodes, n.nFrm ≠ frm) ∧ (c.currentSize ≤ 1 ∨ c.currentSize ≠ maxItems) ∧
      put_block_cache maxItems blk frm buf c =
        { currentSize := c.currentSize + 1, nodes := ⟨blk, frm, buf⟩ :: c.nodes }) := by
  obtain ⟨hsz, hnd⟩ := hWF
  by_cases h0 : c.currentSize = 0
  · have hn : c.nodes = [] := List.eq_nil_of_length_eq_zero (by omega)
    right; right; right
    refine ⟨by simp [hn], Or.inl (by omega), ?_⟩
    simp [put_block_cache, h0, hn]
  · have hne : c.nodes ≠ [] := by
      intro he; rw [he] at hsz; simp at hsz; omega
    obtain ⟨h, t, hcn⟩ := List.exists_cons_of_ne_nil hne
    by_cases h1 : c.currentSize = 1
    · have ht : t = [] := by
        rw [hcn] at hsz; simp at hsz
        exact List.eq_nil_of_length_eq_zero (by omega)
      subst ht
      by_cases hm : h.nFrm = frm
      · left
        refine ⟨h, [], hcn, hm, ?_⟩
        simp [put_block_cache, h0, h1, hcn, hm]
      · right; right; right
        refine ⟨?_, Or.inl (by omega), ?_⟩
        · intro n hmem
          rw [hcn] at hmem
          simp at hmem
          rw [hmem]; exact hm
        · rw [hcn]
          simp [put_block_cache, h0, h1, hcn, hm]
    · by_cases hmax : c.currentSize = maxItems
      · by_cases hm : h.nFrm = frm
        · left
          refine ⟨h, t, hcn, hm, ?_⟩
          simp only [put_block_cache]
          rw [if_neg h0, if_neg h1, if_pos hmax, hcn]
          simp [hm]
        · cases hx : extractByFrm frm t with
          | some p =>
            obtain ⟨m, t2⟩ := p
            right; left
            refine ⟨h, t, m, t2, hcn, hm, hx, ?_⟩
            simp only [put_block_cache]
            rw [if_neg h0, if_neg h1, if_pos hmax, hcn]
            simp [hm, hx]
          | none =>
            have hall : ∀ n ∈ c.nodes, n.nFrm ≠ frm := by
              intro n hmem
              rw [hcn] at hmem
              rcases List.mem_cons.mp hmem with rfl | hmem2
              · exact hm
              · exact (extractByFrm_eq_none frm t).mp hx n hmem2
            have htne : t ≠ [] := by
              intro he; rw [hcn, he] at hsz; simp at hsz; omega
            obtain ⟨n2, t3, htl⟩ := List.exists_cons_of_ne_nil htne
            right; right; left
            refine ⟨hall, hmax, by omega, ?_⟩
            rw [htl] at hx
            rw [htl] at hcn
            rw [hcn]
            simp only [put_block_cache]
            rw [if_neg h0, if_neg h1, if_pos hmax, hcn]
            simp [hm, hx]
      · by_cases hm : h.nFrm = frm
        · left
          refine ⟨h, t, hcn, hm, ?_⟩
          simp only [put_block_cache]
          rw [if_neg h0, if_neg h1, if_neg hmax, hcn]
          simp [hm]
        · cases hx : extractByFrm frm t with
          | some p =>
            obtain ⟨m, t2⟩ := p
            right; left
            refine ⟨h, t, m, t2, hcn, hm, hx, ?_⟩
            simp only [put_block_cache]
            rw [if_neg h0, if_neg h1, if_neg hmax, hcn]
            simp [hm, hx]
          | none =>
            right; right; right
            refine ⟨?_, Or.inr hmax, ?_⟩
            · intro n hmem
              rw [hcn] at hmem
              rcases List.mem_cons.mp hmem with rfl | hmem2
              · exact hm
              · exact (extractByFrm_eq_none frm t).mp hx n hmem2
            · rw [hcn]
              simp only [put_block_cache]
              rw [if_neg h0, if_neg h1, if_neg hmax, hcn]
              simp [hm, hx]

/-- Insertion preserves the structural cache invariant. -/
theorem put_block_cache_WF {α : Type} (maxItems blk frm : Nat) (buf : α) (c : Cache α)
    (hWF : CacheWF c) : CacheWF (put_block_cache maxItems blk frm buf c) := by
  obtain ⟨hsz, hnd⟩ := hWF
  rcases put_block_cache_shape maxItems blk frm buf c ⟨hsz, hnd⟩ with
    ⟨h, t, hcn, hm, heq⟩ | ⟨h, t, m, t2, hcn, hm, hx, heq⟩ | ⟨hall, hmax, hge, heq⟩ |
    ⟨hall, hcond, heq⟩
  · rw [heq]
    constructor
    · rw [hcn] at hsz; simpa using hsz
    · rw [hcn] at hnd; simpa using hnd
  · obtain ⟨hmf, hperm⟩ := extractByFrm_spec frm t m t2 hx
    have hperm2 : (t.map CacheNode.nFrm).Perm (m.nFrm :: t2.map CacheNode.nFrm) := by
      simpa using hperm.map CacheNode.nFrm
    rw [hcn] at hnd hsz
    rw [heq]
    constructor
    · have hlen := hperm.length_eq
      simp at hlen hsz ⊢
      omega
    · have hpermAll : (m.nFrm :: h.nFrm :: t2.map CacheNode.nFrm).Perm
          (h.nFrm :: t.map CacheNode.nFrm) :=
        List.Perm.trans (List.Perm.swap h.nFrm m.nFrm (t2.map CacheNode.nFrm))
          (List.Perm.cons h.nFrm hperm2.symm)
      simp only [List.map_cons] at hnd ⊢
      exact hpermAll.nodup_iff.mpr hnd
  · rw [heq]
    have hlen : 1 ≤ c.nodes.length := by omega
    constructor
    · simp [List.length_dropLast]
      omega
    · simp only [List.map_cons, List.nodup_cons]
      constructor
      · intro hc
        obtain ⟨n, hn1, hn2⟩ := List.mem_map.mp hc
        exact hall n ((List.dropLast_sublist c.nodes).subset hn1) hn2
      · exact hnd.sublist ((List.dropLast_sublist c.nodes).map CacheNode.nFrm)
  · rw [heq]
    constructor
    · simpa using hsz
    · simp only [List.map_cons, List.nodup_cons]
      refine ⟨?_, hnd⟩
      intro hc
      obtain ⟨n, hn1, hn2⟩ := List.mem_map.mp hc
      exact hall n hn1 hn2

/-- Insertion keeps cache contents coherent with a frame store: if every
cached entry agrees with the store, then after inserting content for a frame
index every entry agrees with the store updated at that index. -/
theorem put_block_cache_coherent {α : Type} (maxItems blk frm : Nat) (buf : α)
    (c : Cache α) (d : Nat → α) (hWF : CacheWF c)
    (hCo : ∀ n ∈ c.nodes, n.nbuf = d n.nFrm) :
    ∀ n ∈ (put_block_cache maxItems blk frm buf c).nodes,
      n.nbuf = (fun x => if x = frm then buf else d x) n.nFrm := by
  obtain ⟨hsz, hnd⟩ := hWF
  rcases put_block_cache_shape maxItems blk frm buf c ⟨hsz, hnd⟩ with
    ⟨h, t, hcn, hm, heq⟩ | ⟨h, t, m, t2, hcn, hm, hx, heq⟩ | ⟨hall, hmax, hge, heq⟩ |
    ⟨hall, hcond, heq⟩
  · rw [heq]
    intro n hn
    rcases List.mem_cons.mp hn with rfl | hn2
    · simp [hm]
    · rw [hcn] at hnd
      simp only [List.map_cons, List.nodup_cons] at hnd
      have : n.nFrm ≠ frm := by
        intro hc
        exact hnd.1 (hm ▸ hc ▸ List.mem_map.mpr ⟨n, hn2, rfl⟩)
      simp only [this, if_neg this]
      exact hCo n (by rw [hcn]; exact List.mem_cons_of_mem _ hn2)
  · obtain ⟨hmf, hperm⟩ := extractByFrm_spec frm t m t2 hx
    have hperm2 : (t.map CacheNode.nFrm).Perm (m.nFrm :: t2.map CacheNode.nFrm) := by
      simpa using hperm.map CacheNode.nFrm
    rw [hcn] at hnd
    simp only [List.map_cons, List.nodup_cons] at hnd
    have hndt : (m.nFrm :: t2.map CacheNode.nFrm).Nodup := hperm2.nodup_iff.mp hnd.2
    rw [heq]
    intro n hn
    rcases List.mem_cons.mp hn with rfl | hn2
    · simp [hmf]
    · rcases List.mem_cons.mp hn2 with rfl | hn3
      · simp only [if_neg hm]
        exact hCo n (by rw [hcn]; exact List.mem_cons_self _ _)
      · have hfr : n.nFrm ≠ frm := by
          intro hc
          simp only [List.nodup_cons] at hndt
          exact hndt.1 (hmf ▸ hc ▸ List.mem_map.mpr ⟨n, hn3, rfl⟩)
        simp only [if_neg hfr]
        refine hCo n ?_
        rw [hcn]
        exact List.mem_cons_of_mem _ (hperm.mem_iff.mpr (List.mem_cons_of_mem _ hn3))
  · rw [heq]
    intro n hn
    rcases List.mem_cons.mp hn with rfl | hn2
    · simp
    · have hmem : n ∈ c.nodes := (List.dropLast_sublist c.nodes).subset hn2
      have hfr : n.nFrm ≠ frm := hall n hmem
      simp only [if_neg hfr]
      exact hCo n hmem
  · rw [heq]
    intro n hn
    rcases List.mem_cons.mp hn with rfl | hn2
    · simp
    · have hfr : n.nFrm ≠ frm := hall n hn2
      simp only [if_neg hfr]
      exact hCo n hn2

/-- With a capacity of at least two, insertion never pushes a well-formed
cache past the configured maximum entry count. -/
theorem put_block_cache_length_le {α : Type} (maxItems blk frm : Nat) (buf : α)
    (c : Cache α) (hWF : CacheWF c) (h2 : 2 ≤ maxItems)
    (hle : c.nodes.length ≤ maxItems) :
    (put_block_cache maxItems blk frm buf c).nodes.length ≤ maxItems := by
  obtain ⟨hsz, hnd⟩ := hWF
  rcases put_block_cache_shape maxItems blk frm buf c ⟨hsz, hnd⟩ with
    ⟨h, t, hcn, hm, heq⟩ | ⟨h, t, m, t2, hcn, hm, hx, heq⟩ | ⟨hall, hmax, hge, heq⟩ |
    ⟨hall, hcond, heq⟩
  · rw [heq]
    rw [hcn] at hle
    simpa using hle
  · obtain ⟨hmf, hperm⟩ := extractByFrm_spec frm t m t2 hx
    have hlen := hperm.length_eq
    rw [heq]
    rw [hcn] at hle
    simp at hlen hle ⊢
    omega
  · rw [heq]
    simp [List.length_dropLast]
    omega
  · rw [heq]
    rcases hcond with hle1 | hne
    · simp
      omega
    · simp
      omega

/-- Running a well-formed cache within capacity through any call sequence
keeps it well formed and within capacity, for capacities of at least two. -/
theorem runOps_preserves {α : Type} (maxItems : Nat) (h2 : 2 ≤ maxItems) :
    ∀ (ops : List (CacheOp α)) (c : Cache α), CacheWF c → c.nodes.length ≤ maxItems →
      CacheWF (runOps maxItems ops c) ∧
        (runOps maxItems ops c).nodes.length ≤ maxItems := by
  intro ops
  induction ops with
  | nil => intro c hWF hle; exact ⟨hWF, hle⟩
  | cons op rest ih =>
    intro c hWF hle
    cases op with
    | putOp blk frm buf =>
      simp only [runOps]
      exact ih _ (put_block_cache_WF _ _ _ _ _ hWF)
        (put_block_cache_length_le _ _ _ _ _ hWF h2 hle)
    | getOp blk frm =>
      simp only [runOps]
      exact ih c hWF hle

/-- A sequence consisting only of lookups leaves the cache state unchanged. -/
theorem runOps_gets_id {α : Type} (maxItems : Nat) :
    ∀ (ops : List (CacheOp α)) (c : Cache α), (∀ op ∈ ops, op.isGet = true) →
      runOps maxItems ops c = c := by
  intro ops
  induction ops with
  | nil => intro c _; rfl
  | cons op rest ih =>
    intro c hall
    cases op with
    | putOp blk frm buf =>
      have := hall _ (List.mem_cons_self _ _)
      simp [CacheOp.isGet] at this
    | getOp blk frm =>
      simp only [runOps]
      exact ih c (fun op hop => hall op (List.mem_cons_of_mem _ hop))

/-- C2 counterexample: with configured maximum 1, starting from the freshly
initialized cache, two inserts with distinct frame indices leave two entries in
the cache — the number of entries exceeds the configured maximum of one, so the
capacity bound fails for that configuration. -/
theorem C2_capacity_bound_counterexample :
    (runOps 1 [CacheOp.putOp 0 100 (5 : Nat), CacheOp.putOp 0 101 7]
        (init_block_cache Nat)).nodes.length = 2 ∧
      (runOps 1 [CacheOp.putOp 0 100 (5 : Nat), CacheOp.putOp 0 101 7]
        (init_block_cache Nat)).currentSize = 2 ∧ ¬(2 ≤ 1) :=
  ⟨rfl, rfl, by omega⟩

/-- C2 (amended): for every configured maximum entry count of at least two,
fixed before first use, and for every sequence of `put_block_cache` and
`get_block_cache` calls after `init_block_cache`, the number of entries held in
the cache never exceeds the configured maximum (both the entry-list length and
the size counter stay bounded at every reachable state, hence at every point of
every call sequence). -/
theorem C2_capacity_bound_amended {α : Type} (maxItems : Nat) (h2 : 2 ≤ maxItems)
    (ops : List (CacheOp α)) :
    (runOps maxItems ops (init_block_cache α)).nodes.length ≤ maxItems ∧
      (runOps maxItems ops (init_block_cache α)).currentSize ≤ maxItems := by
  have h := runOps_preserves maxItems h2 ops (init_block_cache α)
    ⟨rfl, List.nodup_nil⟩ (by simp [init_block_cache])
  obtain ⟨⟨hsz, _⟩, hle⟩ := h
  exact ⟨hle, by omega⟩

/-- Witness for the amended C2 at a concrete capacity and call sequence. -/
theorem C2_capacity_bound_witness :
    2 ≤ 2 ∧
      ((runOps 2 [CacheOp.putOp 0 100 (5 : Nat), CacheOp.putOp 0 101 7,
          CacheOp.getOp 0 100, CacheOp.putOp 0 102 9]
        (init_block_cache Nat)).nodes.length ≤ 2 ∧
      (runOps 2 [CacheOp.putOp 0 100 (5 : Nat), CacheOp.putOp 0 101 7,
          CacheOp.getOp 0 100, CacheOp.putOp 0 102 9]
        (init_block_cache Nat)).currentSize ≤ 2) :=
  ⟨by omega, C2_capacity_bound_amended 2 (by omega) _⟩

/-- C6 counterexample: with configured maximum 1 the cache is at capacity after
one insert, yet a put with a fresh frame index inserts a second entry instead
of evicting and overwriting the tail: the old entry survives and the entry
count grows to two, refuting the eviction claim for that configuration. -/
theorem C6_eviction_policy_counterexample :
    put_block_cache 1 0 101 (7 : Nat)
        (runOps 1 [CacheOp.putOp 0 100 (5 : Nat)] (init_block_cache Nat)) ≠
      { currentSize := 1, nodes := [⟨0, 101, 7⟩] } ∧
    (put_block_cache 1 0 101 (7 : Nat)
        (runOps 1 [CacheOp.putOp 0 100 (5 : Nat)] (init_block_cache Nat))).nodes =
      [⟨0, 101, 7⟩, ⟨0, 100, 5⟩] :=
  ⟨by decide, rfl⟩

/-- C6 (amended): whenever the configured capacity is at least two and the
well-formed cache is at that capacity, a put with a frame index matching no
cached entry evicts the least-recently-inserted-or-updated entry — the tail of
the recency list — overwriting its key and content with the new ones at the
most-recent position; and since lookups perform no store, an entry that was
only read is never the one evicted in its place (any lookup-only sequence
before the put leaves the evicted entry and the resulting state unchanged). -/
theorem C6_eviction_policy_amended {α : Type} (maxItems blk frm : Nat) (buf : α)
    (c : Cache α) (h2 : 2 ≤ maxItems) (hWF : CacheWF c)
    (hcap : c.currentSize = maxItems) (habs : ∀ n ∈ c.nodes, n.nFrm ≠ frm) :
    put_block_cache maxItems blk frm buf c =
      { currentSize := c.currentSize, nodes := ⟨blk, frm, buf⟩ :: c.nodes.dropLast } ∧
      ∀ gets : List (CacheOp α), (∀ op ∈ gets, op.isGet = true) →
        put_block_cache maxItems blk frm buf (runOps maxItems gets c) =
          put_block_cache maxItems blk frm buf c := by
  constructor
  · rcases put_block_cache_shape maxItems blk frm buf c hWF with
      ⟨h, t, hcn, hm, heq⟩ | ⟨h, t, m, t2, hcn, hm, hx, heq⟩ | ⟨hall, hmax, hge, heq⟩ |
      ⟨hall, hcond, heq⟩
    · exact absurd hm (habs h (by rw [hcn]; exact List.mem_cons_self _ _))
    · obtain ⟨hmf, hperm⟩ := extractByFrm_spec frm t m t2 hx
      have hmem : m ∈ c.nodes := by
        rw [hcn]
        exact List.mem_cons_of_mem _ (hperm.mem_iff.mpr (List.mem_cons_self _ _))
      exact absurd hmf (habs m hmem)
    · exact heq
    · rcases hcond with hle1 | hne
      · obtain ⟨hsz, _⟩ := hWF
        have hlen : 2 ≤ c.nodes.length := by omega
        omega
      · exact absurd hcap hne
  · intro gets hget
    rw [runOps_gets_id maxItems gets c hget]

/-- Witness for the amended C6 at a concrete at-capacity cache. -/
theorem C6_eviction_policy_witness :
    2 ≤ 2 ∧
      (put_block_cache 2 0 102 (9 : Nat)
          { currentSize := 2, nodes := [⟨0, 101, 7⟩, ⟨0, 100, 5⟩] } =
        { currentSize := 2, nodes := [⟨0, 102, 9⟩, ⟨0, 101, 7⟩] } ∧
      ∀ gets : List (CacheOp Nat), (∀ op ∈ gets, op.isGet = true) →
        put_block_cache 2 0 102 (9 : Nat)
            (runOps 2 gets { currentSize := 2, nodes := [⟨0, 101, 7⟩, ⟨0, 100, 5⟩] }) =
          put_block_cache 2 0 102 (9 : Nat)
            { currentSize := 2, nodes := [⟨0, 101, 7⟩, ⟨0, 100, 5⟩] }) := by
  refine ⟨by omega, ?_, ?_⟩
  · have h := (C6_eviction_policy_amended 2 0 102 (9 : Nat)
      { currentSize := 2, nodes := [⟨0, 101, 7⟩, ⟨0, 100, 5⟩] } (by omega)
      ⟨rfl, by decide⟩ rfl (by decide)).1
    rw [h]
    rfl
  · exact (C6_eviction_policy_amended 2 0 102 (9 : Nat)
      { currentSize := 2, nodes := [⟨0, 101, 7⟩, ⟨0, 100, 5⟩] } (by omega)
      ⟨rfl, by decide⟩ rfl (by decide)).2

/-- The lookup walk of `get_block_cache` returns the first matching node. -/
theorem getWalk_eq_find {α : Type} (frm : Nat) :
    ∀ l : List (CacheNode α),
      getWalk frm l = (l.find? (fun n => n.nFrm == frm)).map CacheNode.nbuf := by
  intro l
  induction l with
  | nil => rfl
  | cons n rest ih =>
    cases rest with
    | nil =>
      by_cases h : n.nFrm = frm
      · simp [getWalk, h]
      · simp [getWalk, h]
    | cons m rest2 =>
      by_cases h : n.nFrm = frm
      · simp [getWalk, h]
      · rw [show getWalk frm (n :: m :: rest2) = getWalk frm (m :: rest2) by
          simp [getWalk, h]]
        rw [ih]
        have : (fun x : CacheNode α => x.nFrm == frm) n = false := by
          simp [h]
        simp [List.find?, this]

/-- C7: lookup is a pure read: for every cache state and key,
`get_block_cache` returns the stored content of the first entry whose frame
index matches — a miss otherwise — and, performing no store, leaves the cache
entirely unchanged: any sequence consisting only of lookups keeps entries,
contents and recency ordering intact, so it never changes future eviction
order. -/
theorem C7_lookup_pure {α : Type} (maxItems blk frm : Nat) (c : Cache α) :
    get_block_cache blk frm c =
      (c.nodes.find? (fun n => n.nFrm == frm)).map CacheNode.nbuf ∧
    ∀ gets : List (CacheOp α), (∀ op ∈ gets, op.isGet = true) →
      runOps maxItems gets c = c := by
  constructor
  · exact getWalk_eq_find frm c.nodes
  · intro gets h
    exact runOps_gets_id maxItems gets c h

/-- Witness for C7 at a concrete cache and lookup-only sequence. -/
theorem C7_lookup_pure_witness :
    (get_block_cache 0 100 { currentSize := 2, nodes := [⟨0, 99, (3 : Nat)⟩, ⟨0, 100, 5⟩] } =
      (({ currentSize := 2, nodes := [⟨0, 99, (3 : Nat)⟩, ⟨0, 100, 5⟩] } :
          Cache Nat).nodes.find? (fun n => n.nFrm == 100)).map CacheNode.nbuf) ∧
    runOps 4 [CacheOp.getOp 0 100, CacheOp.getOp 0 7]
        { currentSize := 2, nodes := [⟨0, 99, (3 : Nat)⟩, ⟨0, 100, 5⟩] } =
      { currentSize := 2, nodes := [⟨0, 99, (3 : Nat)⟩, ⟨0, 100, 5⟩] } :=
  ⟨(C7_lookup_pure 4 0 100 _).1,
    (C7_lookup_pure 4 0 100 _).2 [CacheOp.getOp 0 100, CacheOp.getOp 0 7] (by decide)⟩

/-- Byte buffer of a frame, modelled as a function from byte index to byte
value; only indices below `BLOCK_FRAME_SIZE` are meaningful. -/
abbrev Frame := Nat → Nat

/-- Modelled from the spec: opcode constant for device-init.  The `BLOCK_OP_*`
constants live in block_controller.h, which is not among the repository
sources; the spec consumes them as opaque distinct 8-bit values, so they are
modelled as distinct small naturals. -/
def BLOCK_OP_INITMS : Nat := 0

/-- Modelled from the spec: opcode constant for zero-all. -/
def BLOCK_OP_BZERO : Nat := 1

/-- Modelled from the spec: opcode constant for frame-read. -/
def BLOCK_OP_RDFRME : Nat := 2

/-- Modelled from the spec: opcode constant for frame-write. -/
def BLOCK_OP_WRFRME : Nat := 3

/-- Modelled from the spec: opcode constant for power-off. -/
def BLOCK_OP_POWOFF : Nat := 4

/-- Bus response: the register value and the frame buffer contents produced by
one `block_io_bus` exchange.  The transport is external, so the loop is
quantified over arbitrary response lists, one response per exchange. -/
abbrev BusResp := Nat × Frame

/-- Source: the retry loop of `executeOpcode` in block_driver.c, driven by a
list of bus responses.  The initial `rt1 = -1` makes the loop always run at
least one exchange.  Each iteration sends a packed register (recorded by
`executeOpcodeSends`), receives the next response `(reg, frame2)`, unpacks it
into the new opcode, frame index, checksum and return code, and — when the
returned opcode is frame-read — replaces the return code by the comparison of
the returned checksum with the checksum recomputed over the returned buffer
(`rt1 = (cs1 == cs1_comp) ? 0 : -1`, the `-1` being `4294967295` in the
`uint32_t` variable).  The loop exits iff the return code is zero, yielding the
final buffer contents; `none` models a loop still running when the response
list is exhausted — the source loop is unbounded and never returns failure.
The external `compute_frame_checksum` writes a `uint32_t`, modelled by reducing
an arbitrary checksum function modulo `2 ^ 32`. -/
def executeOpcodeGo (checksum : Frame → Nat) :
    Nat → Nat → Frame → List BusResp → Option Frame
  | _, _, _, [] => none
  | _, _, _, (reg, frame2) :: rest =>
    if (if unpack_ky reg = BLOCK_OP_RDFRME then
          (if unpack_cs reg = checksum frame2 % 4294967296 then 0 else 4294967295)
        else unpack_rt reg) = 0 then
      some frame2
    else
      executeOpcodeGo checksum (unpack_ky reg) (unpack_fm reg) frame2 rest

/-- Source: the registers passed to `block_io_bus` by the loop of
`executeOpcode`, one per completed exchange: each iteration computes
`cs1 = compute_frame_checksum(frame)` exactly when the current opcode is
`BLOCK_OP_WRFRME` (zero otherwise) and sends
`pack(ky1, fm1, cs1, 0)`; on a failed exchange the next iteration continues
with the opcode and frame index unpacked from the response. -/
def executeOpcodeSends (checksum : Frame → Nat) :
    Nat → Nat → Frame → List BusResp → List Nat
  | _, _, _, [] => []
  | ky1, fm1, frame, (reg, frame2) :: rest =>
    if (if unpack_ky reg = BLOCK_OP_RDFRME then
          (if unpack_cs reg = checksum frame2 % 4294967296 then 0 else 4294967295)
        else unpack_rt reg) = 0 then
      [pack ky1 fm1 (if ky1 = BLOCK_OP_WRFRME then checksum frame % 4294967296 else 0) 0]
    else
      pack ky1 fm1 (if ky1 = BLOCK_OP_WRFRME then checksum frame % 4294967296 else 0) 0 ::
        executeOpcodeSends checksum (unpack_ky reg) (unpack_fm reg) frame2 rest

/-- Success judgment in the words of the spec: an exchange is acknowledged
successful when the returned opcode is frame-read and the checksum recomputed
over the returned buffer equals the returned checksum field, and for every
other returned opcode when the returned return code is zero. -/
def judgeResp (checksum : Frame → Nat) (r : BusResp) : Bool :=
  if unpack_ky r.1 = BLOCK_OP_RDFRME then
    unpack_cs r.1 == checksum r.2 % 4294967296
  else unpack_rt r.1 == 0

/-- The opcode field of any register value fits in 8 bits. -/
theorem unpack_ky_lt (reg : Nat) : unpack_ky reg < 256 := by
  unfold unpack_ky
  rw [Nat.shiftRight_eq_div_pow]
  have h : (2 : Nat) ^ 56 = 72057594037927936 := by norm_num
  rw [h]
  omega

/-- The frame-index field of any register value fits in 16 bits. -/
theorem unpack_fm_lt (reg : Nat) : unpack_fm reg < 65536 := by
  unfold unpack_fm
  rw [Nat.shiftLeft_eq, Nat.shiftRight_eq_div_pow]
  have h8 : (2 : Nat) ^ 8 = 256 := by norm_num
  have h48 : (2 : Nat) ^ 48 = 281474976710656 := by norm_num
  rw [h8, h48]
  omega

/-- The retry loop returns exactly the buffer of the first response judged
successful — retrying every judged failure and never surfacing one. -/
theorem executeOpcodeGo_eq_find (checksum : Frame → Nat) :
    ∀ (rs : List BusResp) (ky fm : Nat) (frame : Frame),
      executeOpcodeGo checksum ky fm frame rs =
        (rs.find? (judgeResp checksum)).map Prod.snd := by
  intro rs
  induction rs with
  | nil => intro ky fm frame; rfl
  | cons r rest ih =>
    intro ky fm frame
    obtain ⟨reg, frame2⟩ := r
    by_cases hrd : unpack_ky reg = BLOCK_OP_RDFRME
    · by_cases hcs : unpack_cs reg = checksum frame2 % 4294967296
      · simp [executeOpcodeGo, judgeResp, List.find?, hrd, hcs]
      · have hb : (unpack_cs reg == checksum frame2 % 4294967296) = false := by
          simp [hcs]
        simp [executeOpcodeGo, judgeResp, List.find?, hrd, hcs, hb, ih]
    · by_cases hrt : unpack_rt reg = 0
      · simp [executeOpcodeGo, judgeResp, List.find?, hrd, hrt]
      · have hb : (unpack_rt reg == 0) = false := by
          simp [hrt]
        simp [executeOpcodeGo, judgeResp, List.find?, hrd, hrt, hb, ih]

/-- Every register the loop sends carries a checksum field equal to the
checksum of the buffer being sent when the sent opcode is frame-write, and
zero for every other opcode.  The buffer at exchange `i` is the initial buffer
for `i = 0` and the buffer returned by exchange `i - 1` afterwards. -/
theorem executeOpcodeSends_cs (checksum : Frame → Nat) :
    ∀ (rs : List BusResp) (ky fm : Nat) (frame : Frame), ky < 256 → fm < 65536 →
      ∀ i, i < (executeOpcodeSends checksum ky fm frame rs).length →
        unpack_cs ((executeOpcodeSends checksum ky fm frame rs).getD i 0) =
          (if unpack_ky ((executeOpcodeSends checksum ky fm frame rs).getD i 0) =
              BLOCK_OP_WRFRME then
            checksum ((frame :: rs.map Prod.snd).getD i (fun _ => 0)) % 4294967296
          else 0) := by
  intro rs
  induction rs with
  | nil =>
    intro ky fm frame hky hfm i hi
    simp [executeOpcodeSends] at hi
  | cons r rest ih =>
    intro ky fm frame hky hfm i hi
    obtain ⟨reg, frame2⟩ := r
    have hcs1 : (if ky = BLOCK_OP_WRFRME then checksum frame % 4294967296 else 0) <
        4294967296 := by
      by_cases hw : ky = BLOCK_OP_WRFRME
      · simp [hw]; omega
      · simp [hw]
    have hky0 : unpack_ky
        (pack ky fm (if ky = BLOCK_OP_WRFRME then checksum frame % 4294967296 else 0) 0) =
        ky := unpack_ky_pack ky fm _ 0 hky hfm hcs1 (by omega)
    have hcs0 : unpack_cs
        (pack ky fm (if ky = BLOCK_OP_WRFRME then checksum frame % 4294967296 else 0) 0) =
        (if ky = BLOCK_OP_WRFRME then checksum frame % 4294967296 else 0) :=
      unpack_cs_pack ky fm _ 0 hky hfm hcs1 (by omega)
    by_cases hsucc : (if unpack_ky reg = BLOCK_OP_RDFRME then
          (if unpack_cs reg = checksum frame2 % 4294967296 then 0 else 4294967295)
        else unpack_rt reg) = 0
    · simp only [executeOpcodeSends, if_pos hsucc] at hi ⊢
      simp only [List.length_cons, List.length_nil] at hi
      have hi0 : i = 0 := by omega
      subst hi0
      simp only [List.getD, List.get?, List.map, Option.getD]
      rw [hky0, hcs0]
    · simp only [executeOpcodeSends, if_neg hsucc] at hi ⊢
      cases i with
      | zero =>
        simp only [List.getD, List.get?, List.map, Option.getD]
        rw [hky0, hcs0]
      | succ j =>
        simp only [List.length_cons] at hi
        have hj := ih (unpack_ky reg) (unpack_fm reg) frame2
          (unpack_ky_lt reg) (unpack_fm_lt reg) j (by omega)
        simpa using hj

/-- C5: in every register the protocol engine sends, the checksum field is the
checksum computed over the outgoing buffer if and only if the sent opcode is
frame-write, and zero for every other opcode; after each exchange success is
judged by recomputing the checksum over the returned buffer and comparing it
with the returned checksum field when the returned opcode is frame-read, and
by a zero return code for every other opcode; the loop repeats the exchange
until the first success, whose buffer contents it returns — it never returns a
failure to its caller. -/
theorem C5_executeOpcode (checksum : Frame → Nat) (ky fm : Nat) (frame : Frame)
    (rs : List BusResp) (hky : ky < 256) (hfm : fm < 65536) :
    executeOpcodeGo checksum ky fm frame rs =
      (rs.find? (judgeResp checksum)).map Prod.snd ∧
    ∀ i, i < (executeOpcodeSends checksum ky fm frame rs).length →
      unpack_cs ((executeOpcodeSends checksum ky fm frame rs).getD i 0) =
        (if unpack_ky ((executeOpcodeSends checksum ky fm frame rs).getD i 0) =
            BLOCK_OP_WRFRME then
          checksum ((frame :: rs.map Prod.snd).getD i (fun _ => 0)) % 4294967296
        else 0) :=
  ⟨executeOpcodeGo_eq_find checksum rs ky fm frame,
    executeOpcodeSends_cs checksum rs ky fm frame hky hfm⟩

/-- Witness for C5 at a concrete opcode, frame index, buffer, checksum
function and response list. -/
theorem C5_executeOpcode_witness :
    3 < 256 ∧ 7 < 65536 ∧
      (executeOpcodeGo (fun _ => 0) 3 7 (fun _ => 0) [(pack 2 7 0 0, fun _ => 1)] =
        (([(pack 2 7 0 0, fun _ => (1 : Nat))].find? (judgeResp (fun _ => 0))).map
          Prod.snd) ∧
      ∀ i, i < (executeOpcodeSends (fun _ => 0) 3 7 (fun _ => 0)
          [(pack 2 7 0 0, fun _ => 1)]).length →
        unpack_cs ((executeOpcodeSends (fun _ => 0) 3 7 (fun _ => 0)
            [(pack 2 7 0 0, fun _ => 1)]).getD i 0) =
          (if unpack_ky ((executeOpcodeSends (fun _ => 0) 3 7 (fun _ => 0)
              [(pack 2 7 0 0, fun _ => 1)]).getD i 0) = BLOCK_OP_WRFRME then
            (fun _ : Frame => (0 : Nat))
                ((((fun _ => 0) : Frame) ::
                  [(pack 2 7 0 0, fun _ => (1 : Nat))].map Prod.snd).getD i (fun _ => 0)) %
              4294967296
          else 0)) :=
  ⟨by omega, by omega,
    C5_executeOpcode (fun _ => 0) 3 7 (fun _ => 0) [(pack 2 7 0 0, fun _ => 1)]
      (by omega) (by omega)⟩

/-- Modelled from the spec: `BLOCK_MAX_TOTAL_FILES`, the capacity of the
static file and handle tables; its value lives in a header that is not among
the repository sources.  The tables are modelled as total functions, so the
constant only appears in not-full hypotheses. -/
def BLOCK_MAX_TOTAL_FILES : Nat := 1024

/-- Source: `OPEN` in block_driver.c. -/
def OPEN : Nat := 1

/-- Source: `CLOSED` in block_driver.c. -/
def CLOSED : Nat := 0

/-- Source: `struct file_data` in block_driver.c: the stored name bytes (the
zeroed 128-byte array modelled by its written bytes), `size` (C `int`), the
`uint16_t frames[1024]` array as a total function from slot to frame number,
and `nrFrames` (C `int`, non-negative in every reachable state). -/
structure file_t where
  name : List Nat
  size : Int
  frames : Nat → Nat
  nrFrames : Nat

/-- Source: `struct file_handler`: the `file_t*` pointer modelled as the index
of the file in the table (`none` for `NULL`), the cursor `loc` (C `int`) and
the open/closed `status`. -/
structure fh_t where
  file : Option Nat
  loc : Int
  status : Nat
  deriving DecidableEq

/-- Frame store of the simulated device.  Claim C1 assumes the bus transport
stores and returns frame contents faithfully, so a frame-write through the
protocol engine updates this store and a frame-read returns it. -/
abbrev Device := Nat → Frame

/-- Source: the global state of block_driver.c (`isOn`, `nbFiles`,
`nbHandles`, `freeFrameNr`, `files`, `handles`) together with the device frame
store behind the bus and the cache of block_cache.c (`cacheMax` models
`block_cache_max_items`, fixed before first use).  `freeFrameNr` is a C `int`
that starts non-negative and only increments, hence a `Nat`. -/
structure DriverState where
  isOn : Bool
  nbFiles : Nat
  nbHandles : Nat
  freeFrameNr : Nat
  files : Nat → file_t
  handles : Nat → fh_t
  device : Device
  cache : Cache Frame
  cacheMax : Nat

/-- Byte-buffer copy `memcpy(dst + dstOff, src + srcOff, n)`. -/
def memcpy (dst : Nat → Nat) (dstOff : Nat) (src : Nat → Nat) (srcOff n : Nat) :
    Nat → Nat :=
  fun i => if dstOff ≤ i ∧ i < dstOff + n then src (srcOff + (i - dstOff)) else dst i

/-- Narrowing of a C `int` value to `uint32_t` (wraparound modulo `2 ^ 32`). -/
def intToUInt32 (x : Int) : Nat := (x % 4294967296).toNat

/-- Reading of a `uint32_t` value as a C `int` (two's complement; values below
`2 ^ 31` are unchanged). -/
def uint32ToInt (n : Nat) : Int :=
  if n % 4294967296 < 2147483648 then ((n % 4294967296 : Nat) : Int)
  else ((n % 4294967296 : Nat) : Int) - 4294967296

/-- Narrowing of the handle counter to the `int16_t` return value of
`block_open` (two's complement; values below `2 ^ 15` are unchanged). -/
def natToInt16 (n : Nat) : Int :=
  if n % 65536 < 32768 then ((n % 65536 : Nat) : Int)
  else ((n % 65536 : Nat) : Int) - 65536

/-- Source: `closeFile` in block_driver.c: mark closed, cursor `-1`, file
pointer `NULL`. -/
def closeFile (_h : fh_t) : fh_t :=
  { file := none, loc := -1, status := CLOSED }

/-- Source: `openFile` in block_driver.c: bind the handle to the file, cursor
`0`, mark open. -/
def openFile (_h : fh_t) (i : Nat) : fh_t :=
  { file := some i, loc := 0, status := OPEN }

/-- Source: `createNewFile` in block_driver.c:
`memcpy(file->name, path, strlen(path))` into the name array (zeroed at
power-on, so the stored bytes are exactly the path bytes), size `0`, no
frames; the frames array is left untouched. -/
def createNewFile (path : List Nat) (f : file_t) : file_t :=
  { f with name := path, size := 0, nrFrames := 0 }

/-- Source: the comparison `memcmp(files[i].name, path, strlen(path)) == 0` of
`block_open`: the first `strlen(path)` bytes of the stored name (zero padding
beyond its written bytes) against the bytes of `path`.  A stored name that
merely starts with the path bytes therefore also matches. -/
def nameMatches (name : List Nat) (path : List Nat) : Bool :=
  (List.range path.length).all (fun j => name.getD j 0 == path.getD j 0)

/-- Source: the linear scan of `block_open` over `files[0 .. nbFiles)`,
returning the first index whose stored name matches the path. -/
def findFile (files : Nat → file_t) (nbFiles : Nat) (path : List Nat) : Option Nat :=
  (List.range nbFiles).find? (fun i => nameMatches (files i).name path)

/-- Source: `block_open` in block_driver.c: fail when powered off; otherwise
resolve the path to an existing file by the scan, or create a fresh record at
index `nbFiles`; open handle `nbHandles` on the resolved file with cursor `0`,
count it, and return its index as an `int16_t`. -/
def block_open (path : List Nat) (s : DriverState) : Int × DriverState :=
  if s.isOn = false then (-1, s)
  else
    let p :=
      match findFile s.files s.nbFiles path with
      | some i => (i, s)
      | none =>
        (s.nbFiles,
          { s with
            files := fun j => if j = s.nbFiles then createNewFile path (s.files j)
              else s.files j,
            nbFiles := s.nbFiles + 1 })
    (natToInt16 p.2.nbHandles,
      { p.2 with
        handles := fun j => if j = p.2.nbHandles then openFile (p.2.handles j) p.1
          else p.2.handles j,
        nbHandles := p.2.nbHandles + 1 })

/-- Source: `block_close` in block_driver.c: fail when powered off, fail when
the handle is already closed (the source returns `-1` for a closed handle),
otherwise close it via `closeFile`. -/
def block_close (fd : Nat) (s : DriverState) : Int × DriverState :=
  if s.isOn = false then (-1, s)
  else if (s.handles fd).status = CLOSED then (-1, s)
  else
    (0, { s with handles := fun j => if j = fd then closeFile (s.handles j)
      else s.handles j })

/-- Source: `block_seek` in block_driver.c: fail when the handle is closed or
when the file size is below the requested offset
(`handles[fd].file->size < loc` compares the `int` size with the `uint32_t`
offset, performed unsigned); otherwise set the cursor to the offset. -/
def block_seek (fd : Nat) (loc : Nat) (s : DriverState) : Int × DriverState :=
  if (s.handles fd).status = CLOSED then (-1, s)
  else
    match (s.handles fd).file with
    | none => (-1, s)
    | some fi =>
      if intToUInt32 (s.files fi).size < loc % 4294967296 then (-1, s)
      else
        (0, { s with handles := fun j => if j = fd then
          { s.handles j with loc := uint32ToInt loc } else s.handles j })

/-- Source: the allocation loop of `allocateNewFrames` in block_driver.c:
while the frame capacity is short of `loc + count`, store the next free frame
number into the next slot of the frames array (a `uint16_t` store, hence the
`% 65536`), advance the counter and the local frame count, and fail as soon as
the counter exceeds the device capacity `cap` (the `BLOCK_BLOCK_SIZE` constant
of the missing header, passed as a parameter).  The `fuel` argument only makes
the recursion structural; callers pass enough fuel for the loop to reach its
exit condition. -/
def allocLoop (cap : Nat) :
    Nat → (Nat → Nat) → Nat → Nat → Int → Int → Int × (Nat → Nat) × Nat × Nat
  | 0, frames, nrF, ffn, _, _ => (0, frames, nrF, ffn)
  | fuel + 1, frames, nrF, ffn, loc, count =>
    if loc + count > ((nrF : Int) * 4096) then
      if ffn + 1 > cap then
        (-1, fun j => if j = nrF then ffn % 65536 else frames j, nrF + 1, ffn + 1)
      else
        allocLoop cap fuel (fun j => if j = nrF then ffn % 65536 else frames j)
          (nrF + 1) (ffn + 1) loc count
    else (0, frames, nrF, ffn)

/-- Source: `allocateNewFrames` in block_driver.c: run the allocation loop on
the local `uint16_t` copy of the frame count; on success store the new count
back into the file, on failure leave `nrFrames` — and hence the logical frame
list — unchanged, though the slots at and beyond the old count and the global
free-frame counter have already been written through the pointers.  Returns
the result code, the updated file and the new counter value. -/
def allocateNewFrames (cap : Nat) (f : file_t) (loc count : Int) (ffn : Nat) :
    Int × file_t × Nat :=
  if (allocLoop cap ((loc + count).toNat + 1) f.frames (f.nrFrames % 65536) ffn
      loc count).1 = 0 then
    (0, { f with
      frames := (allocLoop cap ((loc + count).toNat + 1) f.frames
        (f.nrFrames % 65536) ffn loc count).2.1,
      nrFrames := (allocLoop cap ((loc + count).toNat + 1) f.frames
        (f.nrFrames % 65536) ffn loc count).2.2.1 },
      (allocLoop cap ((loc + count).toNat + 1) f.frames (f.nrFrames % 65536) ffn
        loc count).2.2.2)
  else
    (-1, { f with
      frames := (allocLoop cap ((loc + count).toNat + 1) f.frames
        (f.nrFrames % 65536) ffn loc count).2.1 },
      (allocLoop cap ((loc + count).toNat + 1) f.frames (f.nrFrames % 65536) ffn
        loc count).2.2.2)

/-- Source: the shared frame-fetch step of the copy loops of `block_read` and
`block_write` in block_driver.c: consult the cache for the frame; on a miss,
read the frame from the device through the protocol engine (`executeOpcode`
with `BLOCK_OP_RDFRME` against the faithful transport returns the stored
frame contents) and populate the cache with it. -/
def cacheFetch (maxItems : Nat) (dev : Device) (frame_nr : Nat)
    (cache : Cache Frame) : Frame × Cache Frame :=
  match get_block_cache 0 frame_nr cache with
  | some cbuf => (cbuf, cache)
  | none => (dev frame_nr, put_block_cache maxItems 0 frame_nr (dev frame_nr) cache)

/-- Source: the copy loop of `block_read` in block_driver.c: per iteration,
locate the frame slot and in-frame offset of the cursor, fetch the frame via
`cacheFetch`, copy up to a frame boundary into the destination buffer, and
advance.  The `fuel` argument makes the recursion structural; each iteration
copies at least one byte, so `fuel = remaining` suffices. -/
def readGo (maxItems : Nat) (f : file_t) (dev : Device) :
    Nat → Nat → Nat → Nat → (Nat → Nat) → Cache Frame →
      (Nat → Nat) × Cache Frame × Nat
  | 0, loc, _, _, buf, cache => (buf, cache, loc)
  | fuel + 1, loc, remaining, bufOffset, buf, cache =>
    if remaining = 0 then (buf, cache, loc)
    else
      let frame_offset := loc % 4096
      let frame_nr := f.frames (loc / 4096)
      let fc := cacheFetch maxItems dev frame_nr cache
      let data_size := if 4096 - frame_offset > remaining then remaining
        else 4096 - frame_offset
      readGo maxItems f dev fuel (loc + data_size) (remaining - data_size)
        (bufOffset + data_size) (memcpy buf bufOffset fc.1 frame_offset data_size) fc.2

/-- Source: the copy loop of `block_write` in block_driver.c: per iteration,
fetch the current frame contents (cache, else a protocol-engine read which
then populates the cache), splice the incoming bytes into the byte range of
the frame, write the frame through the protocol engine (`BLOCK_OP_WRFRME`
updates the faithful device store) and refresh the cache with the new
contents. -/
def writeGo (maxItems : Nat) (f : file_t) (buf : Nat → Nat) :
    Nat → Nat → Nat → Nat → Device → Cache Frame → Device × Cache Frame × Nat
  | 0, loc, _, _, dev, cache => (dev, cache, loc)
  | fuel + 1, loc, remaining, bufOffset, dev, cache =>
    if remaining = 0 then (dev, cache, loc)
    else
      let frame_nr := f.frames (loc / 4096)
      let frame_offset := loc % 4096
      let fc := cacheFetch maxItems dev frame_nr cache
      let data_size := if 4096 - frame_offset > remaining then remaining
        else 4096 - frame_offset
      writeGo maxItems f buf fuel (loc + data_size) (remaining - data_size)
        (bufOffset + data_size)
        (fun n => if n = frame_nr then memcpy fc.1 frame_offset buf bufOffset data_size
          else dev n)
        (put_block_cache maxItems 0 frame_nr
          (memcpy fc.1 frame_offset buf bufOffset data_size) fc.2)

/-- Source: `block_read` in block_driver.c: fail when powered off or when the
handle is closed; clip the requested count to the remaining file bytes; run
the copy loop from the cursor; store the advanced cursor back and return the
clipped count.  A negative remaining count makes the C loop run with a
negative copy size — undefined behavior, modelled as copying nothing. -/
def block_read (fd : Nat) (buf : Nat → Nat) (count : Int) (s : DriverState) :
    Int × (Nat → Nat) × DriverState :=
  if s.isOn = false then (-1, buf, s)
  else if (s.handles fd).status = CLOSED then (-1, buf, s)
  else
    match (s.handles fd).file with
    | none => (-1, buf, s)
    | some fi =>
      let f := s.files fi
      let loc := (s.handles fd).loc
      let count2 := if f.size - loc < count then f.size - loc else count
      let r := readGo s.cacheMax f s.device count2.toNat loc.toNat count2.toNat 0 buf
        s.cache
      (count2, r.1,
        { s with
          cache := r.2.1,
          handles := fun j => if j = fd then { s.handles j with loc := (r.2.2 : Int) }
            else s.handles j })

/-- Source: `block_write` in block_driver.c: fail when the handle is closed
(the source performs no power check here); run frame allocation for
`loc + count` and fail the whole call when it fails — the scratch frame slots
and the global free-frame counter keep the writes the allocation loop already
performed; otherwise run the copy loop, store the advanced cursor back, grow
the file size by `count` unconditionally, and return `count`. -/
def block_write (cap : Nat) (fd : Nat) (buf : Nat → Nat) (count : Int)
    (s : DriverState) : Int × DriverState :=
  if (s.handles fd).status = CLOSED then (-1, s)
  else
    match (s.handles fd).file with
    | none => (-1, s)
    | some fi =>
      let a := allocateNewFrames cap (s.files fi) ((s.handles fd).loc) count
        s.freeFrameNr
      if a.1 = -1 then
        (-1, { s with
          files := fun j => if j = fi then a.2.1 else s.files j,
          freeFrameNr := a.2.2 })
      else
        let r := writeGo s.cacheMax a.2.1 buf count.toNat ((s.handles fd).loc).toNat
          count.toNat 0 s.device s.cache
        (count,
          { s with
            files := fun j => if j = fi then { a.2.1 with size := a.2.1.size + count }
              else s.files j,
            freeFrameNr := a.2.2,
            device := r.1,
            cache := r.2.1,
            handles := fun j => if j = fd then { s.handles j with loc := (r.2.2 : Int) }
              else s.handles j })

/-- Concrete file record used by the witnesses. -/
def sampleFile : file_t :=
  { name := [102, 111, 111], size := 0, frames := fun _ => 0, nrFrames := 0 }

/-- Concrete driver state used by the witnesses: powered on, one zero-byte
file named by three bytes, handle 0 open on it with cursor 0, empty cache of
capacity 2, zeroed device. -/
def sampleState : DriverState :=
  { isOn := true, nbFiles := 1, nbHandles := 1, freeFrameNr := 10,
    files := fun _ => sampleFile,
    handles := fun j => if j = 0 then { file := some 0, loc := 0, status := OPEN }
      else { file := none, loc := -1, status := CLOSED },
    device := fun _ _ => 0,
    cache := init_block_cache Frame,
    cacheMax := 2 }

/-- C3 counterexample: closing the open handle 0 of the sample state succeeds
with `0`; calling `block_close` again on the now-closed handle returns the
failure sentinel `-1` — an already-closed handle does report an error, so the
second close is not the error-free call the claim describes. -/
theorem C3_close_counterexample :
    (block_close 0 sampleState).1 = 0 ∧
    (block_close 0 (block_close 0 sampleState).2).1 = -1 ∧ ((-1 : Int) ≠ 0) :=
  ⟨rfl, rfl, by omega⟩

/-- C3 (amended): while powered on, `block_close` on an open handle marks it
closed, invalidates the cursor to `-1`, clears the file reference and returns
`0`; on an already-closed handle it changes nothing but returns the failure
sentinel `-1` — in particular a second close of the same handle reports an
error rather than succeeding. -/
theorem C3_close_amended (s : DriverState) (fd : Nat) (hOn : s.isOn = true) :
    ((s.handles fd).status = CLOSED → block_close fd s = (-1, s)) ∧
    ((s.handles fd).status ≠ CLOSED →
      (block_close fd s).1 = 0 ∧
      ((block_close fd s).2.handles fd).status = CLOSED ∧
      ((block_close fd s).2.handles fd).loc = -1 ∧
      ((block_close fd s).2.handles fd).file = none ∧
      block_close fd (block_close fd s).2 = (-1, (block_close fd s).2)) := by
  constructor
  · intro hcl
    simp [block_close, hOn, hcl]
  · intro hop
    have hred : block_close fd s =
        (0, { s with
          handles := fun j =>
            if j = fd then closeFile (s.handles j) else s.handles j }) := by
      simp [block_close, hOn, hop]
    rw [hred]
    refine ⟨rfl, ?_, ?_, ?_, ?_⟩
    · simp [closeFile]
    · simp [closeFile]
    · simp [closeFile]
    · have hc2 : (({ s with
          handles := fun j =>
            if j = fd then closeFile (s.handles j) else s.handles j } :
          DriverState).handles fd).status = CLOSED := by
        simp [closeFile]
      simp [block_close, hOn, hc2, closeFile]

/-- Witness for the amended C3 at the sample state. -/
theorem C3_close_amended_witness :
    sampleState.isOn = true ∧
      (((sampleState.handles 0).status = CLOSED → block_close 0 sampleState =
        (-1, sampleState)) ∧
      ((sampleState.handles 0).status ≠ CLOSED →
        (block_close 0 sampleState).1 = 0 ∧
        ((block_close 0 sampleState).2.handles 0).status = CLOSED ∧
        ((block_close 0 sampleState).2.handles 0).loc = -1 ∧
        ((block_close 0 sampleState).2.handles 0).file = none ∧
        block_close 0 (block_close 0 sampleState).2 =
          (-1, (block_close 0 sampleState).2))) :=
  ⟨rfl, C3_close_amended sampleState 0 rfl⟩

/-- C10: whenever the device is powered on and the file and handle tables are
not full, `block_open` never fails for any path: it returns the fresh
non-negative handle index `nbHandles` with open status and cursor `0`, bumps
the handle counter, and — when no stored name matches the path under the
source comparison over the first `strlen(path)` bytes — creates a new
zero-size, zero-frame file record at index `nbFiles`; when a stored name
matches, the handle is bound to the first matching file and no file is
created. -/
theorem C10_open_never_fails (s : DriverState) (path : List Nat)
    (hOn : s.isOn = true) (hF : s.nbFiles < BLOCK_MAX_TOTAL_FILES)
    (hH : s.nbHandles < BLOCK_MAX_TOTAL_FILES) :
    (block_open path s).1 = (s.nbHandles : Int) ∧ 0 ≤ (block_open path s).1 ∧
    (block_open path s).2.nbHandles = s.nbHandles + 1 ∧
    ((block_open path s).2.handles s.nbHandles).status = OPEN ∧
    ((block_open path s).2.handles s.nbHandles).loc = 0 ∧
    (findFile s.files s.nbFiles path = none →
      ((block_open path s).2.handles s.nbHandles).file = some s.nbFiles ∧
      (block_open path s).2.nbFiles = s.nbFiles + 1 ∧
      ((block_open path s).2.files s.nbFiles).size = 0 ∧
      ((block_open path s).2.files s.nbFiles).nrFrames = 0) ∧
    (∀ i, findFile s.files s.nbFiles path = some i →
      ((block_open path s).2.handles s.nbHandles).file = some i ∧
      (block_open path s).2.nbFiles = s.nbFiles) := by
  have hlt : s.nbHandles < 32768 := by
    unfold BLOCK_MAX_TOTAL_FILES at hH
    omega
  have hn16 : natToInt16 s.nbHandles = (s.nbHandles : Int) := by
    unfold natToInt16
    rw [Nat.mod_eq_of_lt (by omega), if_pos hlt]
  cases hff : findFile s.files s.nbFiles path with
  | some i =>
    refine ⟨?_, ?_, ?_, ?_, ?_, ?_, ?_⟩ <;>
      simp [block_open, hOn, hff, hn16, openFile, OPEN]
  | none =>
    refine ⟨?_, ?_, ?_, ?_, ?_, ?_, ?_⟩ <;>
      simp [block_open, hOn, hff, hn16, openFile, createNewFile, OPEN]

/-- Witness for C10 at the sample state with a path matching no stored
name. -/
theorem C10_open_never_fails_witness :
    sampleState.isOn = true ∧ sampleState.nbFiles < BLOCK_MAX_TOTAL_FILES ∧
      sampleState.nbHandles < BLOCK_MAX_TOTAL_FILES ∧
      ((block_open [98] sampleState).1 = (sampleState.nbHandles : Int) ∧
        0 ≤ (block_open [98] sampleState).1 ∧
        (block_open [98] sampleState).2.nbHandles = sampleState.nbHandles + 1 ∧
        ((block_open [98] sampleState).2.handles sampleState.nbHandles).status = OPEN ∧
        ((block_open [98] sampleState).2.handles sampleState.nbHandles).loc = 0 ∧
        (findFile sampleState.files sampleState.nbFiles [98] = none →
          ((block_open [98] sampleState).2.handles sampleState.nbHandles).file =
            some sampleState.nbFiles ∧
          (block_open [98] sampleState).2.nbFiles = sampleState.nbFiles + 1 ∧
          ((block_open [98] sampleState).2.files sampleState.nbFiles).size = 0 ∧
          ((block_open [98] sampleState).2.files sampleState.nbFiles).nrFrames = 0) ∧
        (∀ i, findFile sampleState.files sampleState.nbFiles [98] = some i →
          ((block_open [98] sampleState).2.handles sampleState.nbHandles).file =
            some i ∧
          (block_open [98] sampleState).2.nbFiles = sampleState.nbFiles)) :=
  ⟨rfl, by decide, by decide,
    C10_open_never_fails sampleState [98] rfl (by decide) (by decide)⟩

/-- The allocation loop stores frame numbers only at slots at or beyond the
starting frame count: slots below it are untouched even on failure. -/
theorem allocLoop_frames_lower (cap : Nat) :
    ∀ (fuel : Nat) (frames : Nat → Nat) (nrF ffn : Nat) (loc count : Int) (j : Nat),
      j < nrF →
      (allocLoop cap fuel frames nrF ffn loc count).2.1 j = frames j := by
  intro fuel
  induction fuel with
  | zero => intro frames nrF ffn loc count j hj; rfl
  | succ n ih =>
    intro frames nrF ffn loc count j hj
    simp only [allocLoop]
    by_cases hc : loc + count > ((nrF : Int) * 4096)
    · rw [if_pos hc]
      by_cases hf : ffn + 1 > cap
      · rw [if_pos hf]
        simp only []
        rw [if_neg (by omega)]
      · rw [if_neg hf]
        rw [ih _ _ _ _ _ j (by omega)]
        rw [if_neg (by omega)]
    · rw [if_neg hc]

/-- On success the allocation loop exits with enough frames for the request,
provided the fuel covers the worst case. -/
theorem allocLoop_success_bound (cap : Nat) :
    ∀ (fuel : Nat) (frames : Nat → Nat) (nrF ffn : Nat) (loc count : Int),
      loc + count ≤ ((nrF : Int) + (fuel : Int)) * 4096 →
      (allocLoop cap fuel frames nrF ffn loc count).1 = 0 →
      loc + count ≤
        (((allocLoop cap fuel frames nrF ffn loc count).2.2.1 : Int) * 4096) := by
  intro fuel
  induction fuel with
  | zero =>
    intro frames nrF ffn loc count had hres
    show loc + count ≤ ((nrF : Int) * 4096)
    push_cast at had
    omega
  | succ n ih =>
    intro frames nrF ffn loc count had hres
    simp only [allocLoop] at hres ⊢
    by_cases hc : loc + count > ((nrF : Int) * 4096)
    · rw [if_pos hc] at hres ⊢
      by_cases hf : ffn + 1 > cap
      · rw [if_pos hf] at hres
        simp at hres
      · rw [if_neg hf] at hres ⊢
        refine ih _ _ _ _ _ ?_ hres
        push_cast at had ⊢
        omega
    · rw [if_neg hc] at hres ⊢
      show loc + count ≤ ((nrF : Int) * 4096)
      omega

/-- Failed allocation leaves size and frame count of the file unchanged. -/
theorem allocateNewFrames_fail_file (cap : Nat) (f : file_t) (loc count : Int)
    (ffn : Nat) (h : (allocateNewFrames cap f loc count ffn).1 = -1) :
    (allocateNewFrames cap f loc count ffn).2.1.size = f.size ∧
    (allocateNewFrames cap f loc count ffn).2.1.nrFrames = f.nrFrames ∧
    (∀ j, j < f.nrFrames % 65536 →
      (allocateNewFrames cap f loc count ffn).2.1.frames j = f.frames j) := by
  unfold allocateNewFrames at h ⊢
  by_cases hr : (allocLoop cap ((loc + count).toNat + 1) f.frames (f.nrFrames % 65536)
      ffn loc count).1 = 0
  · rw [if_pos hr] at h
    simp at h
  · rw [if_neg hr]
    refine ⟨rfl, rfl, ?_⟩
    intro j hj
    exact allocLoop_frames_lower cap _ _ _ _ _ _ j hj

/-- Successful allocation keeps the file size and yields enough frames for
`loc + count`. -/
theorem allocateNewFrames_success (cap : Nat) (f : file_t) (loc count : Int)
    (ffn : Nat) (h : (allocateNewFrames cap f loc count ffn).1 ≠ -1) :
    (allocateNewFrames cap f loc count ffn).1 = 0 ∧
    (allocateNewFrames cap f loc count ffn).2.1.size = f.size ∧
    loc + count ≤ (((allocateNewFrames cap f loc count ffn).2.1.nrFrames : Int) *
      4096) := by
  unfold allocateNewFrames at h ⊢
  by_cases hr : (allocLoop cap ((loc + count).toNat + 1) f.frames (f.nrFrames % 65536)
      ffn loc count).1 = 0
  · rw [if_pos hr]
    refine ⟨rfl, rfl, ?_⟩
    refine allocLoop_success_bound cap _ _ _ _ _ _ ?_ hr
    push_cast
    omega
  · rw [if_neg hr] at h
    simp at h

/-- C8: when frame allocation during `block_write` fails — the free-frame
counter would exceed the total device capacity — the whole write fails with
`-1`, and the file state (size, frame count, and the frame-index list at every
slot below the frame count) and the handle cursor are unchanged by the failed
call, as are the device store and the cache; only scratch array slots at or
beyond the frame count and the global free-frame counter differ. -/
theorem C8_alloc_failure_atomic (cap fd fi : Nat) (buf : Nat → Nat) (count : Int)
    (s : DriverState)
    (hSt : ¬(s.handles fd).status = CLOSED)
    (hFi : (s.handles fd).file = some fi)
    (hNr : (s.files fi).nrFrames < 65536)
    (hFail : (allocateNewFrames cap (s.files fi) ((s.handles fd).loc) count
      s.freeFrameNr).1 = -1) :
    (block_write cap fd buf count s).1 = -1 ∧
    ((block_write cap fd buf count s).2.files fi).size = (s.files fi).size ∧
    ((block_write cap fd buf count s).2.files fi).nrFrames = (s.files fi).nrFrames ∧
    (∀ j, j < (s.files fi).nrFrames →
      ((block_write cap fd buf count s).2.files fi).frames j =
        (s.files fi).frames j) ∧
    (block_write cap fd buf count s).2.handles fd = s.handles fd ∧
    (block_write cap fd buf count s).2.device = s.device ∧
    (block_write cap fd buf count s).2.cache = s.cache := by
  obtain ⟨h1, h2, h3⟩ := allocateNewFrames_fail_file cap (s.files fi)
    ((s.handles fd).loc) count s.freeFrameNr hFail
  have hmod : (s.files fi).nrFrames % 65536 = (s.files fi).nrFrames :=
    Nat.mod_eq_of_lt hNr
  have hred : block_write cap fd buf count s =
      (-1, { s with
        files := fun j => if j = fi then
          (allocateNewFrames cap (s.files fi) ((s.handles fd).loc) count
            s.freeFrameNr).2.1 else s.files j,
        freeFrameNr := (allocateNewFrames cap (s.files fi) ((s.handles fd).loc) count
          s.freeFrameNr).2.2 }) := by
    simp [block_write, hSt, hFi, hFail]
  rw [hred]
  refine ⟨rfl, ?_, ?_, ?_, rfl, rfl, rfl⟩
  · simpa using h1
  · simpa using h2
  · intro j hj
    have := h3 j (by omega)
    simpa using this

/-- Witness for C8 at a concrete state whose allocation fails: capacity 4 with
the free-frame counter already at 5. -/
theorem C8_alloc_failure_atomic_witness :
    (¬(({ sampleState with freeFrameNr := 5 } : DriverState).handles 0).status =
      CLOSED) ∧
    (({ sampleState with freeFrameNr := 5 } : DriverState).handles 0).file = some 0 ∧
    (({ sampleState with freeFrameNr := 5 } : DriverState).files 0).nrFrames < 65536 ∧
    (allocateNewFrames 4
      (({ sampleState with freeFrameNr := 5 } : DriverState).files 0)
      ((({ sampleState with freeFrameNr := 5 } : DriverState).handles 0).loc) 1
      ({ sampleState with freeFrameNr := 5 } : DriverState).freeFrameNr).1 = -1 ∧
    (block_write 4 0 (fun _ => 7) 1
      ({ sampleState with freeFrameNr := 5 } : DriverState)).1 = -1 :=
  ⟨by decide, rfl, by decide, by decide,
    (C8_alloc_failure_atomic 4 0 0 (fun _ => 7) 1
      { sampleState with freeFrameNr := 5 } (by decide) rfl (by decide)
      (by decide)).1⟩

/-- Size invariant of the spec, for every file of the table:
`frameCount * 4096 >= size`. -/
def sizeInv (s : DriverState) : Prop :=
  ∀ i, (s.files i).size ≤ ((s.files i).nrFrames : Int) * 4096

/-- Reading leaves the file table unchanged. -/
theorem block_read_files (fd : Nat) (buf : Nat → Nat) (count : Int)
    (s : DriverState) : (block_read fd buf count s).2.2.files = s.files := by
  unfold block_read
  by_cases h1 : s.isOn = false
  · rw [if_pos h1]
  · rw [if_neg h1]
    by_cases h2 : (s.handles fd).status = CLOSED
    · rw [if_pos h2]
    · rw [if_neg h2]
      cases hf : (s.handles fd).file with
      | none => rfl
      | some fi => rfl

/-- Seeking leaves the file table unchanged. -/
theorem block_seek_files (fd : Nat) (loc : Nat) (s : DriverState) :
    (block_seek fd loc s).2.files = s.files := by
  unfold block_seek
  by_cases h1 : (s.handles fd).status = CLOSED
  · rw [if_pos h1]
  · rw [if_neg h1]
    cases hf : (s.handles fd).file with
    | none => rfl
    | some fi =>
      by_cases h2 : intToUInt32 (s.files fi).size < loc % 4294967296
      · simp [h2]
      · simp [h2]

/-- C4 counterexample: an append of one byte allocates one frame (size 1,
invariant 4096 >= 1 holds); after seeking back to offset 0, overwriting 4096
bytes allocates nothing — the region lies inside the existing frame — yet
grows the size to 4097: the invariant `frameCount * 4096 >= size` fails for
that file after a successful write, so it does not hold after every
successful operation. -/
theorem C4_size_invariant_counterexample :
    ((block_write 100000 0 (fun _ => 3) 4096
        (block_seek 0 0 (block_write 100000 0 (fun _ => 7) 1
          sampleState).2).2).2.files 0).size = 4097 ∧
    ((block_write 100000 0 (fun _ => 3) 4096
        (block_seek 0 0 (block_write 100000 0 (fun _ => 7) 1
          sampleState).2).2).2.files 0).nrFrames = 1 ∧
    ¬((4097 : Int) ≤ (1 : Int) * 4096) :=
  ⟨by decide, by decide, by decide⟩

/-- C4 (amended): `block_open`, `block_read` and `block_seek` preserve the
invariant `frameCount * 4096 >= size` of every file, and so does
`block_write` — failing or succeeding — provided its cursor sits at the end of
the file when called (an append); hence the invariant holds after every
successful operation of every append-only run while powered on.  A successful
write starting strictly inside the file can break the invariant, because the
size grows unconditionally while no frame is allocated (see the
counterexample). -/
theorem C4_size_invariant_amended (s : DriverState) (hInv : sizeInv s) :
    (∀ path, sizeInv (block_open path s).2) ∧
    (∀ fd buf count, sizeInv (block_read fd buf count s).2.2) ∧
    (∀ fd loc, sizeInv (block_seek fd loc s).2) ∧
    (∀ cap fd buf count fi, (s.handles fd).file = some fi →
      (s.handles fd).loc = (s.files fi).size →
      (s.files fi).nrFrames < 65536 →
      sizeInv (block_write cap fd buf count s).2) := by
  refine ⟨?_, ?_, ?_, ?_⟩
  · intro path i
    unfold block_open
    by_cases h1 : s.isOn = false
    · rw [if_pos h1]
      exact hInv i
    · rw [if_neg h1]
      cases hff : findFile s.files s.nbFiles path with
      | some k =>
        simp only []
        exact hInv i
      | none =>
        simp only []
        by_cases hik : i = s.nbFiles
        · subst hik
          simp [createNewFile]
        · simp only [if_neg hik]
          exact hInv i
  · intro fd buf count i
    rw [block_read_files fd buf count s]
    exact hInv i
  · intro fd loc i
    rw [block_seek_files fd loc s]
    exact hInv i
  · intro cap fd buf count fi hfi hloc hnr
    by_cases hst : (s.handles fd).status = CLOSED
    · have hred : block_write cap fd buf count s = (-1, s) := by
        simp [block_write, hst]
      rw [hred]
      exact hInv
    · by_cases hfail : (allocateNewFrames cap (s.files fi) ((s.handles fd).loc) count
        s.freeFrameNr).1 = -1
      · obtain ⟨h1, h2, h3⟩ := allocateNewFrames_fail_file cap (s.files fi)
          ((s.handles fd).loc) count s.freeFrameNr hfail
        have hred : block_write cap fd buf count s =
            (-1, { s with
              files := fun j => if j = fi then
                (allocateNewFrames cap (s.files fi) ((s.handles fd).loc) count
                  s.freeFrameNr).2.1 else s.files j,
              freeFrameNr := (allocateNewFrames cap (s.files fi) ((s.handles fd).loc)
                count s.freeFrameNr).2.2 }) := by
          simp [block_write, hst, hfi, hfail]
        rw [hred]
        intro i
        by_cases hik : i = fi
        · subst hik
          have := hInv i
          simpa [h1, h2] using this
        · simpa [hik] using hInv i
      · obtain ⟨hres0, hsz, hbound⟩ := allocateNewFrames_success cap (s.files fi)
          ((s.handles fd).loc) count s.freeFrameNr hfail
        have hred : block_write cap fd buf count s =
            (count, { s with
              files := fun j => if j = fi then
                { (allocateNewFrames cap (s.files fi) ((s.handles fd).loc) count
                    s.freeFrameNr).2.1 with
                  size := (allocateNewFrames cap (s.files fi) ((s.handles fd).loc)
                    count s.freeFrameNr).2.1.size + count }
                else s.files j,
              freeFrameNr := (allocateNewFrames cap (s.files fi) ((s.handles fd).loc)
                count s.freeFrameNr).2.2,
              device := (writeGo s.cacheMax
                (allocateNewFrames cap (s.files fi) ((s.handles fd).loc) count
                  s.freeFrameNr).2.1 buf count.toNat ((s.handles fd).loc).toNat
                count.toNat 0 s.device s.cache).1,
              cache := (writeGo s.cacheMax
                (allocateNewFrames cap (s.files fi) ((s.handles fd).loc) count
                  s.freeFrameNr).2.1 buf count.toNat ((s.handles fd).loc).toNat
                count.toNat 0 s.device s.cache).2.1,
              handles := fun j => if j = fd then { s.handles j with
                loc := ((writeGo s.cacheMax
                  (allocateNewFrames cap (s.files fi) ((s.handles fd).loc) count
                    s.freeFrameNr).2.1 buf count.toNat ((s.handles fd).loc).toNat
                  count.toNat 0 s.device s.cache).2.2 : Int) }
                else s.handles j }) := by
          simp [block_write, hst, hfi, hfail]
        rw [hred]
        intro i
        by_cases hik : i = fi
        · have hgoal : ((if i = fi then
              { (allocateNewFrames cap (s.files fi) ((s.handles fd).loc) count
                  s.freeFrameNr).2.1 with
                size := (allocateNewFrames cap (s.files fi) ((s.handles fd).loc)
                  count s.freeFrameNr).2.1.size + count }
              else s.files i) : file_t) =
              { (allocateNewFrames cap (s.files fi) ((s.handles fd).loc) count
                  s.freeFrameNr).2.1 with
                size := (allocateNewFrames cap (s.files fi) ((s.handles fd).loc)
                  count s.freeFrameNr).2.1.size + count } := if_pos hik
          simp only [hgoal]
          show (allocateNewFrames cap (s.files fi) ((s.handles fd).loc) count
              s.freeFrameNr).2.1.size + count ≤
            ((allocateNewFrames cap (s.files fi) ((s.handles fd).loc) count
              s.freeFrameNr).2.1.nrFrames : Int) * 4096
          omega
        · simpa [hik] using hInv i

/-- Witness for the amended C4: the sample state satisfies the invariant and
an append-only write preserves it. -/
theorem C4_size_invariant_witness :
    sizeInv sampleState ∧
      sizeInv (block_write 100000 0 (fun _ => 7) 1 sampleState).2 :=
  ⟨fun i => by simp [sampleState, sampleFile],
    (C4_size_invariant_amended sampleState
        (fun i => by simp [sampleState, sampleFile])).2.2.2
      100000 0 (fun _ => 7) 1 0 rfl (by decide) (by decide)⟩

/-- Coherence of the cache with the device store: every cached entry holds
exactly the device contents of its frame. -/
def Coherent (c : Cache Frame) (dev : Device) : Prop :=
  ∀ n ∈ c.nodes, n.nbuf = dev n.nFrm

/-- A cache hit on a coherent cache returns the device contents of the
frame. -/
theorem get_block_cache_coherent (frm : Nat) (c : Cache Frame) (dev : Device)
    (hCo : Coherent c dev) (b : Frame) (h : get_block_cache 0 frm c = some b) :
    b = dev frm := by
  rw [get_block_cache, getWalk_eq_find] at h
  cases hf : c.nodes.find? (fun n => n.nFrm == frm) with
  | none => rw [hf] at h; cases h
  | some n =>
    rw [hf] at h
    simp at h
    have hp := List.find?_some hf
    have hm := List.mem_of_find?_eq_some hf
    simp only [beq_iff_eq] at hp
    rw [← h, hCo n hm, hp]

/-- The frame returned by the fetch step is the device contents. -/
theorem cacheFetch_fst (maxItems : Nat) (dev : Device) (frm : Nat)
    (cache : Cache Frame) (hCo : Coherent cache dev) :
    (cacheFetch maxItems dev frm cache).1 = dev frm := by
  unfold cacheFetch
  cases hg : get_block_cache 0 frm cache with
  | none => rfl
  | some cbuf => exact get_block_cache_coherent frm cache dev hCo cbuf hg

/-- The fetch step keeps the cache well formed. -/
theorem cacheFetch_WF (maxItems : Nat) (dev : Device) (frm : Nat)
    (cache : Cache Frame) (hWF : CacheWF cache) :
    CacheWF (cacheFetch maxItems dev frm cache).2 := by
  unfold cacheFetch
  cases hg : get_block_cache 0 frm cache with
  | none => exact put_block_cache_WF maxItems 0 frm (dev frm) cache hWF
  | some cbuf => exact hWF

/-- The fetch step keeps the cache coherent with the unchanged device. -/
theorem cacheFetch_coherent (maxItems : Nat) (dev : Device) (frm : Nat)
    (cache : Cache Frame) (hWF : CacheWF cache) (hCo : Coherent cache dev) :
    Coherent (cacheFetch maxItems dev frm cache).2 dev := by
  unfold cacheFetch
  cases hg : get_block_cache 0 frm cache with
  | some cbuf => exact hCo
  | none =>
    have h := put_block_cache_coherent maxItems 0 frm (dev frm) cache dev hWF hCo
    intro n hn
    have := h n hn
    by_cases hx : n.nFrm = frm
    · rw [this, hx]
      simp
    · rw [this]
      simp [hx]

/-- Inserting fresh frame contents keeps a coherent cache coherent with the
device updated at that frame. -/
theorem put_block_cache_coherent_update (maxItems blk frm : Nat) (buf : Frame)
    (cache : Cache Frame) (dev : Device) (hWF : CacheWF cache)
    (hCo : Coherent cache dev) :
    Coherent (put_block_cache maxItems blk frm buf cache)
      (fun n => if n = frm then buf else dev n) := by
  exact put_block_cache_coherent maxItems blk frm buf cache dev hWF hCo

/-- When the requested bytes already fit into the allocated frames, the
allocation loop does nothing. -/
theorem allocLoop_noop (cap fuel : Nat) (frames : Nat → Nat) (nrF ffn : Nat)
    (loc count : Int) (h : ¬loc + count > ((nrF : Int) * 4096)) :
    allocLoop cap fuel frames nrF ffn loc count = (0, frames, nrF, ffn) := by
  cases fuel with
  | zero => rfl
  | succ n => simp only [allocLoop, if_neg h]

/-- When the requested bytes already fit into the allocated frames,
`allocateNewFrames` succeeds and changes nothing. -/
theorem allocateNewFrames_noop (cap : Nat) (f : file_t) (loc count : Int)
    (ffn : Nat) (hnr : f.nrFrames < 65536)
    (h : loc + count ≤ ((f.nrFrames : Int) * 4096)) :
    allocateNewFrames cap f loc count ffn = (0, f, ffn) := by
  unfold allocateNewFrames
  rw [Nat.mod_eq_of_lt hnr]
  rw [allocLoop_noop cap _ f.frames f.nrFrames ffn loc count (by omega)]
  rfl

/-- Small unsigned offsets read back as themselves. -/
theorem uint32ToInt_small (n : Nat) (h : n < 2147483648) :
    uint32ToInt n = (n : Int) := by
  unfold uint32ToInt
  rw [Nat.mod_eq_of_lt (by omega), if_pos (by omega)]

/-- Correctness of the read loop: with a coherent, well-formed cache, the loop
deposits the device contents of the file region starting at the cursor into
the destination buffer, and leaves bytes below the starting buffer offset
untouched. -/
theorem readGo_spec (maxItems : Nat) (f : file_t) (dev : Device) :
    ∀ (fuel loc rem bufOff : Nat) (buf : Nat → Nat) (cache : Cache Frame),
      rem ≤ fuel → CacheWF cache → Coherent cache dev →
      (∀ j, j < rem →
        (readGo maxItems f dev fuel loc rem bufOff buf cache).1 (bufOff + j) =
          dev (f.frames ((loc + j) / 4096)) ((loc + j) % 4096)) ∧
      (∀ k, k < bufOff →
        (readGo maxItems f dev fuel loc rem bufOff buf cache).1 k = buf k) := by
  intro fuel
  induction fuel with
  | zero =>
    intro loc rem bufOff buf cache hfuel hWF hCo
    exact ⟨fun j hj => absurd hj (by omega), fun k hk => rfl⟩
  | succ n ih =>
    intro loc rem bufOff buf cache hfuel hWF hCo
    by_cases h0 : rem = 0
    · subst h0
      simp only [readGo, if_pos rfl]
      exact ⟨fun j hj => absurd hj (by omega), fun k hk => rfl⟩
    · obtain ⟨ds, hds⟩ :
          ∃ d, (if 4096 - loc % 4096 > rem then rem else 4096 - loc % 4096) = d :=
        ⟨_, rfl⟩
      obtain ⟨FC, hFC⟩ :
          ∃ p, cacheFetch maxItems dev (f.frames (loc / 4096)) cache = p := ⟨_, rfl⟩
      have hds_pos : 1 ≤ ds := by
        rw [← hds]
        have := Nat.mod_lt loc (show 0 < 4096 by omega)
        split <;> omega
      have hds_le : ds ≤ rem := by
        rw [← hds]
        split <;> omega
      have hds_fo : loc % 4096 + ds ≤ 4096 := by
        rw [← hds]
        have := Nat.mod_lt loc (show 0 < 4096 by omega)
        split <;> omega
      have hstep : readGo maxItems f dev (n + 1) loc rem bufOff buf cache =
          readGo maxItems f dev n (loc + ds) (rem - ds) (bufOff + ds)
            (memcpy buf bufOff FC.1 (loc % 4096) ds) FC.2 := by
        rw [← hds, ← hFC]
        simp only [readGo, if_neg h0]
      have hWF2 : CacheWF FC.2 := by
        rw [← hFC]
        exact cacheFetch_WF maxItems dev (f.frames (loc / 4096)) cache hWF
      have hCo2 : Coherent FC.2 dev := by
        rw [← hFC]
        exact cacheFetch_coherent maxItems dev (f.frames (loc / 4096)) cache hWF hCo
      have hfst : FC.1 = dev (f.frames (loc / 4096)) := by
        rw [← hFC]
        exact cacheFetch_fst maxItems dev (f.frames (loc / 4096)) cache hCo
      obtain ⟨ih1, ih2⟩ := ih (loc + ds) (rem - ds) (bufOff + ds)
        (memcpy buf bufOff FC.1 (loc % 4096) ds) FC.2 (by omega) hWF2 hCo2
      rw [hstep]
      constructor
      · intro j hj
        by_cases hjds : j < ds
        · have h2 := ih2 (bufOff + j) (by omega)
          rw [h2]
          simp only [memcpy]
          rw [if_pos (by constructor <;> omega)]
          rw [hfst]
          have e1 : (loc + j) / 4096 = loc / 4096 := by omega
          have e2 : (loc + j) % 4096 = loc % 4096 + j := by omega
          have e3 : bufOff + j - bufOff = j := by omega
          rw [e1, e2, e3]
        · have h1 := ih1 (j - ds) (by omega)
          have e : bufOff + ds + (j - ds) = bufOff + j := by omega
          have e2 : loc + ds + (j - ds) = loc + j := by omega
          rw [e, e2] at h1
          exact h1
      · intro k hk
        have h2 := ih2 k (by omega)
        rw [h2]
        simp only [memcpy]
        rw [if_neg (by omega)]

/-- Correctness of the write loop: with a coherent, well-formed cache and
pairwise distinct frame numbers within the file, the loop writes the incoming
byte range into the device store at the file region starting at the cursor,
leaves frames outside the touched region unchanged, and keeps the cache well
formed and coherent with the updated device store. -/
theorem writeGo_spec (maxItems : Nat) (f : file_t) (wbuf : Nat → Nat)
    (hInj : ∀ a b, a < f.nrFrames → b < f.nrFrames → f.frames a = f.frames b →
      a = b) :
    ∀ (fuel loc rem bufOff : Nat) (dev : Device) (cache : Cache Frame),
      rem ≤ fuel → loc + rem ≤ f.nrFrames * 4096 → CacheWF cache →
      Coherent cache dev →
      (∀ j, j < rem →
        (writeGo maxItems f wbuf fuel loc rem bufOff dev cache).1
          (f.frames ((loc + j) / 4096)) ((loc + j) % 4096) = wbuf (bufOff + j)) ∧
      (∀ fr, (∀ j, j < rem → fr ≠ f.frames ((loc + j) / 4096)) →
        (writeGo maxItems f wbuf fuel loc rem bufOff dev cache).1 fr = dev fr) ∧
      CacheWF (writeGo maxItems f wbuf fuel loc rem bufOff dev cache).2.1 ∧
      Coherent (writeGo maxItems f wbuf fuel loc rem bufOff dev cache).2.1
        (writeGo maxItems f wbuf fuel loc rem bufOff dev cache).1 := by
  intro fuel
  induction fuel with
  | zero =>
    intro loc rem bufOff dev cache hfuel hbound hWF hCo
    exact ⟨fun j hj => absurd hj (by omega), fun fr _ => rfl, hWF, hCo⟩
  | succ n ih =>
    intro loc rem bufOff dev cache hfuel hbound hWF hCo
    by_cases h0 : rem = 0
    · subst h0
      simp only [writeGo, if_pos rfl]
      exact ⟨fun j hj => absurd hj (by omega), fun fr _ => rfl, hWF, hCo⟩
    · obtain ⟨ds, hds⟩ :
          ∃ d, (if 4096 - loc % 4096 > rem then rem else 4096 - loc % 4096) = d :=
        ⟨_, rfl⟩
      obtain ⟨FC, hFC⟩ :
          ∃ p, cacheFetch maxItems dev (f.frames (loc / 4096)) cache = p := ⟨_, rfl⟩
      have hds_pos : 1 ≤ ds := by
        rw [← hds]
        have := Nat.mod_lt loc (show 0 < 4096 by omega)
        split <;> omega
      have hds_le : ds ≤ rem := by
        rw [← hds]
        split <;> omega
      have hds_fo : loc % 4096 + ds ≤ 4096 := by
        rw [← hds]
        have := Nat.mod_lt loc (show 0 < 4096 by omega)
        split <;> omega
      have hds_case : ds = rem ∨ ds = 4096 - loc % 4096 := by
        rw [← hds]
        split
        · exact Or.inl rfl
        · exact Or.inr rfl
      have hstep : writeGo maxItems f wbuf (n + 1) loc rem bufOff dev cache =
          writeGo maxItems f wbuf n (loc + ds) (rem - ds) (bufOff + ds)
            (fun m => if m = f.frames (loc / 4096) then
              memcpy FC.1 (loc % 4096) wbuf bufOff ds else dev m)
            (put_block_cache maxItems 0 (f.frames (loc / 4096))
              (memcpy FC.1 (loc % 4096) wbuf bufOff ds) FC.2) := by
        rw [← hds, ← hFC]
        simp only [writeGo, if_neg h0]
      have hWF2 : CacheWF FC.2 := by
        rw [← hFC]
        exact cacheFetch_WF maxItems dev (f.frames (loc / 4096)) cache hWF
      have hCo2 : Coherent FC.2 dev := by
        rw [← hFC]
        exact cacheFetch_coherent maxItems dev (f.frames (loc / 4096)) cache hWF hCo
      have hWF3 : CacheWF (put_block_cache maxItems 0 (f.frames (loc / 4096))
          (memcpy FC.1 (loc % 4096) wbuf bufOff ds) FC.2) :=
        put_block_cache_WF maxItems 0 (f.frames (loc / 4096))
          (memcpy FC.1 (loc % 4096) wbuf bufOff ds) FC.2 hWF2
      have hCo3 : Coherent (put_block_cache maxItems 0 (f.frames (loc / 4096))
          (memcpy FC.1 (loc % 4096) wbuf bufOff ds) FC.2)
          (fun m => if m = f.frames (loc / 4096) then
            memcpy FC.1 (loc % 4096) wbuf bufOff ds else dev m) :=
        put_block_cache_coherent_update maxItems 0 (f.frames (loc / 4096))
          (memcpy FC.1 (loc % 4096) wbuf bufOff ds) FC.2 dev hWF2 hCo2
      obtain ⟨ih1, ih2, ih3, ih4⟩ := ih (loc + ds) (rem - ds) (bufOff + ds)
        (fun m => if m = f.frames (loc / 4096) then
          memcpy FC.1 (loc % 4096) wbuf bufOff ds else dev m)
        (put_block_cache maxItems 0 (f.frames (loc / 4096))
          (memcpy FC.1 (loc % 4096) wbuf bufOff ds) FC.2)
        (by omega) (by omega) hWF3 hCo3
      rw [hstep]
      refine ⟨?_, ?_, ih3, ih4⟩
      · intro j hj
        by_cases hjds : j < ds
        · have e1 : (loc + j) / 4096 = loc / 4096 := by omega
          have e2 : (loc + j) % 4096 = loc % 4096 + j := by omega
          rw [e1, e2]
          have hunt : ∀ j2, j2 < rem - ds →
              f.frames (loc / 4096) ≠ f.frames ((loc + ds + j2) / 4096) := by
            intro j2 hj2 heq
            have hdseq : ds = 4096 - loc % 4096 := by
              rcases hds_case with hc | hc
              · omega
              · exact hc
            have ha : loc / 4096 < f.nrFrames := by omega
            have hb : (loc + ds + j2) / 4096 < f.nrFrames := by omega
            have hab : loc / 4096 ≠ (loc + ds + j2) / 4096 := by omega
            exact hab (hInj (loc / 4096) ((loc + ds + j2) / 4096) ha hb heq)
          have h2 := ih2 (f.frames (loc / 4096)) hunt
          rw [h2]
          rw [if_pos rfl]
          simp only [memcpy]
          rw [if_pos (by constructor <;> omega)]
          have e3 : bufOff + (loc % 4096 + j - loc % 4096) = bufOff + j := by omega
          rw [e3]
        · have h1 := ih1 (j - ds) (by omega)
          have e : bufOff + ds + (j - ds) = bufOff + j := by omega
          have e2 : loc + ds + (j - ds) = loc + j := by omega
          rw [e, e2] at h1
          exact h1
      · intro fr hfr
        have hfr0 : fr ≠ f.frames (loc / 4096) := by
          have := hfr 0 (by omega)
          simpa using this
        have h2 := ih2 fr (fun j2 hj2 => by
          have := hfr (ds + j2) (by omega)
          have e : loc + (ds + j2) = loc + ds + j2 := by omega
          rw [e] at this
          exact this)
        rw [h2]
        rw [if_neg hfr0]

/-- C1: round-trip: for an open handle whose cursor and length lie within the
file bounds — with well-formed file metadata, pairwise distinct frame numbers,
and a cache coherent with the device store (all of which hold in reachable
states), and assuming the bus transport stores and returns frame contents
faithfully — writing a byte sequence via `block_write`, seeking back to the
same offset via `block_seek`, and reading the same length via `block_read`
succeeds and returns bytes identical to those written. -/
theorem C1_write_read_roundtrip (cap fd fi : Nat) (loc0 cnt : Nat)
    (wbuf rbuf : Nat → Nat) (s : DriverState)
    (hOn : s.isOn = true)
    (hH : s.handles fd = { file := some fi, loc := (loc0 : Int), status := OPEN })
    (hBound : (loc0 : Int) + (cnt : Int) ≤ (s.files fi).size)
    (hCap : (s.files fi).size ≤ ((s.files fi).nrFrames : Int) * 4096)
    (hNr : (s.files fi).nrFrames < 65536)
    (hSize31 : (s.files fi).size + (cnt : Int) < 2147483648)
    (hLoc31 : loc0 < 2147483648)
    (hInj : ∀ a b, a < (s.files fi).nrFrames → b < (s.files fi).nrFrames →
      (s.files fi).frames a = (s.files fi).frames b → a = b)
    (hWF : CacheWF s.cache) (hCo : Coherent s.cache s.device) :
    (block_write cap fd wbuf (cnt : Int) s).1 = (cnt : Int) ∧
    (block_seek fd loc0 (block_write cap fd wbuf (cnt : Int) s).2).1 = 0 ∧
    (block_read fd rbuf (cnt : Int)
      (block_seek fd loc0 (block_write cap fd wbuf (cnt : Int) s).2).2).1 =
      (cnt : Int) ∧
    ∀ j, j < cnt →
      (block_read fd rbuf (cnt : Int)
        (block_seek fd loc0 (block_write cap fd wbuf (cnt : Int) s).2).2).2.1 j =
        wbuf j := by
  have hst : ¬((s.handles fd).status = CLOSED) := by
    rw [hH]
    simp [OPEN, CLOSED]
  have hfi : (s.handles fd).file = some fi := by rw [hH]
  have hloc : (s.handles fd).loc = (loc0 : Int) := by rw [hH]
  have halloc : allocateNewFrames cap (s.files fi) (loc0 : Int) (cnt : Int)
      s.freeFrameNr = (0, s.files fi, s.freeFrameNr) :=
    allocateNewFrames_noop cap (s.files fi) (loc0 : Int) (cnt : Int) s.freeFrameNr
      hNr (by omega)
  obtain ⟨W, hW⟩ :
      ∃ w, writeGo s.cacheMax (s.files fi) wbuf cnt loc0 cnt 0 s.device s.cache = w :=
    ⟨_, rfl⟩
  have hwred : block_write cap fd wbuf (cnt : Int) s =
      ((cnt : Int), { s with
        files := fun j => if j = fi then
          { s.files fi with size := (s.files fi).size + (cnt : Int) }
          else s.files j,
        freeFrameNr := s.freeFrameNr,
        device := W.1,
        cache := W.2.1,
        handles := fun j => if j = fd then { s.handles j with loc := (W.2.2 : Int) }
          else s.handles j }) := by
    simp [block_write, hst, hfi, hloc, halloc, hW, Int.toNat_natCast]
  have hnatbound : loc0 + cnt ≤ (s.files fi).nrFrames * 4096 := by omega
  obtain ⟨W1, W2, W3, W4⟩ := hW ▸ writeGo_spec s.cacheMax (s.files fi) wbuf hInj
    cnt loc0 cnt 0 s.device s.cache (Nat.le_refl cnt) hnatbound hWF hCo
  have hT_handle : (block_write cap fd wbuf (cnt : Int) s).2.handles fd =
      { s.handles fd with loc := (W.2.2 : Int) } := by
    rw [hwred]
    simp
  have hT_files_fi : (block_write cap fd wbuf (cnt : Int) s).2.files fi =
      { s.files fi with size := (s.files fi).size + (cnt : Int) } := by
    rw [hwred]
    simp
  have hT_isOn : (block_write cap fd wbuf (cnt : Int) s).2.isOn = true := by
    rw [hwred]
    exact hOn
  have hT_cache : (block_write cap fd wbuf (cnt : Int) s).2.cache = W.2.1 := by
    rw [hwred]
  have hT_device : (block_write cap fd wbuf (cnt : Int) s).2.device = W.1 := by
    rw [hwred]
  have hT_cacheMax : (block_write cap fd wbuf (cnt : Int) s).2.cacheMax =
      s.cacheMax := by
    rw [hwred]
  have hT_st : ¬(((block_write cap fd wbuf (cnt : Int) s).2.handles fd).status =
      CLOSED) := by
    rw [hT_handle]
    show ¬((s.handles fd).status = CLOSED)
    exact hst
  have hT_file : ((block_write cap fd wbuf (cnt : Int) s).2.handles fd).file =
      some fi := by
    rw [hT_handle]
    exact hfi
  have hguard : ¬(intToUInt32
      (((block_write cap fd wbuf (cnt : Int) s).2.files fi).size) <
        loc0 % 4294967296) := by
    rw [hT_files_fi]
    show ¬(intToUInt32 ((s.files fi).size + (cnt : Int)) < loc0 % 4294967296)
    unfold intToUInt32
    have hnn : (0 : Int) ≤ (s.files fi).size + (cnt : Int) := by omega
    rw [Int.emod_eq_of_lt hnn (by omega), Nat.mod_eq_of_lt (by omega)]
    omega
  have hseekred : block_seek fd loc0 (block_write cap fd wbuf (cnt : Int) s).2 =
      (0, { (block_write cap fd wbuf (cnt : Int) s).2 with
        handles := fun j => if j = fd then
          { (block_write cap fd wbuf (cnt : Int) s).2.handles j with
            loc := uint32ToInt loc0 }
          else (block_write cap fd wbuf (cnt : Int) s).2.handles j }) := by
    simp [block_seek, hT_st, hT_file, hguard]
  have hU_handle : (block_seek fd loc0
      (block_write cap fd wbuf (cnt : Int) s).2).2.handles fd =
      { (block_write cap fd wbuf (cnt : Int) s).2.handles fd with
        loc := (loc0 : Int) } := by
    rw [hseekred]
    simp [uint32ToInt_small loc0 hLoc31]
  have hU_files : (block_seek fd loc0
      (block_write cap fd wbuf (cnt : Int) s).2).2.files =
      (block_write cap fd wbuf (cnt : Int) s).2.files := by
    rw [hseekred]
  have hU_isOn : (block_seek fd loc0
      (block_write cap fd wbuf (cnt : Int) s).2).2.isOn = true := by
    rw [hseekred]
    exact hT_isOn
  have hU_cache : (block_seek fd loc0
      (block_write cap fd wbuf (cnt : Int) s).2).2.cache = W.2.1 := by
    rw [hseekred]
    exact hT_cache
  have hU_device : (block_seek fd loc0
      (block_write cap fd wbuf (cnt : Int) s).2).2.device = W.1 := by
    rw [hseekred]
    exact hT_device
  have hU_cacheMax : (block_seek fd loc0
      (block_write cap fd wbuf (cnt : Int) s).2).2.cacheMax = s.cacheMax := by
    rw [hseekred]
    exact hT_cacheMax
  have hU_st : ¬(((block_seek fd loc0
      (block_write cap fd wbuf (cnt : Int) s).2).2.handles fd).status = CLOSED) := by
    rw [hU_handle]
    show ¬(((block_write cap fd wbuf (cnt : Int) s).2.handles fd).status = CLOSED)
    exact hT_st
  have hU_file : ((block_seek fd loc0
      (block_write cap fd wbuf (cnt : Int) s).2).2.handles fd).file = some fi := by
    rw [hU_handle]
    exact hT_file
  have hU_loc : ((block_seek fd loc0
      (block_write cap fd wbuf (cnt : Int) s).2).2.handles fd).loc = (loc0 : Int) := by
    rw [hU_handle]
  have hU_files_fi : (block_seek fd loc0
      (block_write cap fd wbuf (cnt : Int) s).2).2.files fi =
      { s.files fi with size := (s.files fi).size + (cnt : Int) } := by
    rw [hU_files]
    exact hT_files_fi
  have hclip : ¬(((block_seek fd loc0
      (block_write cap fd wbuf (cnt : Int) s).2).2.files fi).size -
        ((block_seek fd loc0
          (block_write cap fd wbuf (cnt : Int) s).2).2.handles fd).loc <
        (cnt : Int)) := by
    rw [hU_files_fi, hU_loc]
    show ¬((s.files fi).size + (cnt : Int) - (loc0 : Int) < (cnt : Int))
    omega
  have hread1 : (block_read fd rbuf (cnt : Int) (block_seek fd loc0
      (block_write cap fd wbuf (cnt : Int) s).2).2).1 = (cnt : Int) := by
    simp [block_read, hU_isOn, hU_st, hU_file, hclip]
  have hclip2 : ¬(((block_seek fd loc0
      (block_write cap fd wbuf (cnt : Int) s).2).2.files fi).size - (loc0 : Int) <
        (cnt : Int)) := by
    rw [hU_files_fi]
    show ¬((s.files fi).size + (cnt : Int) - (loc0 : Int) < (cnt : Int))
    omega
  have hread2 : (block_read fd rbuf (cnt : Int) (block_seek fd loc0
      (block_write cap fd wbuf (cnt : Int) s).2).2).2.1 =
      (readGo (block_seek fd loc0
          (block_write cap fd wbuf (cnt : Int) s).2).2.cacheMax
        ((block_seek fd loc0 (block_write cap fd wbuf (cnt : Int) s).2).2.files fi)
        (block_seek fd loc0 (block_write cap fd wbuf (cnt : Int) s).2).2.device
        cnt loc0 cnt 0 rbuf
        (block_seek fd loc0 (block_write cap fd wbuf (cnt : Int) s).2).2.cache).1 := by
    simp [block_read, hU_isOn, hU_st, hU_file, hU_loc, hclip2, Int.toNat_natCast]
  have hUWF : CacheWF (block_seek fd loc0
      (block_write cap fd wbuf (cnt : Int) s).2).2.cache := by
    rw [hU_cache]
    exact W3
  have hUCo : Coherent (block_seek fd loc0
      (block_write cap fd wbuf (cnt : Int) s).2).2.cache
      (block_seek fd loc0 (block_write cap fd wbuf (cnt : Int) s).2).2.device := by
    rw [hU_cache, hU_device]
    exact W4
  obtain ⟨R1, _⟩ := readGo_spec (block_seek fd loc0
      (block_write cap fd wbuf (cnt : Int) s).2).2.cacheMax
    ((block_seek fd loc0 (block_write cap fd wbuf (cnt : Int) s).2).2.files fi)
    (block_seek fd loc0 (block_write cap fd wbuf (cnt : Int) s).2).2.device
    cnt loc0 cnt 0 rbuf
    (block_seek fd loc0 (block_write cap fd wbuf (cnt : Int) s).2).2.cache
    (Nat.le_refl cnt) hUWF hUCo
  refine ⟨?_, ?_, hread1, ?_⟩
  · rw [hwred]
  · rw [hseekred]
  · intro j hj
    rw [hread2]
    have hr := R1 j hj
    rw [Nat.zero_add] at hr
    rw [hr]
    have hframes : ((block_seek fd loc0
        (block_write cap fd wbuf (cnt : Int) s).2).2.files fi).frames =
        (s.files fi).frames := by
      rw [hU_files_fi]
    rw [hframes, hU_device]
    have hw := W1 j hj
    rw [Nat.zero_add] at hw
    exact hw

/-- Concrete state for the round-trip witness: one file of 8192 bytes over the
two distinct frames 0 and 1, handle 0 open on it with cursor 0. -/
def sampleState2 : DriverState :=
  { sampleState with
    files := fun _ =>
      { name := [102, 111, 111], size := 8192, frames := fun j => j,
        nrFrames := 2 } }

/-- Witness for C1 at the concrete state, writing five bytes at offset 0 and
reading them back. -/
theorem C1_write_read_roundtrip_witness :
    sampleState2.isOn = true ∧
    sampleState2.handles 0 =
      { file := some 0, loc := ((0 : Nat) : Int), status := OPEN } ∧
    ((0 : Nat) : Int) + ((5 : Nat) : Int) ≤ (sampleState2.files 0).size ∧
    CacheWF sampleState2.cache ∧
    Coherent sampleState2.cache sampleState2.device ∧
    ((block_write 100000 0 (fun k => k + 1) ((5 : Nat) : Int) sampleState2).1 =
        ((5 : Nat) : Int) ∧
      (block_seek 0 0 (block_write 100000 0 (fun k => k + 1) ((5 : Nat) : Int)
        sampleState2).2).1 = 0 ∧
      (block_read 0 (fun _ => 0) ((5 : Nat) : Int)
        (block_seek 0 0 (block_write 100000 0 (fun k => k + 1) ((5 : Nat) : Int)
          sampleState2).2).2).1 = ((5 : Nat) : Int) ∧
      ∀ j, j < 5 →
        (block_read 0 (fun _ => 0) ((5 : Nat) : Int)
          (block_seek 0 0 (block_write 100000 0 (fun k => k + 1) ((5 : Nat) : Int)
            sampleState2).2).2).2.1 j = (fun k => k + 1) j) :=
  ⟨rfl, rfl, by decide, ⟨rfl, List.nodup_nil⟩,
    fun n hn => absurd hn (List.not_mem_nil n),
    C1_write_read_roundtrip 100000 0 0 0 5 (fun k => k + 1) (fun _ => 0)
      sampleState2 rfl rfl (by decide) (by decide) (by decide) (by decide)
      (by decide) (fun a b _ _ h => h) ⟨rfl, List.nodup_nil⟩
      (fun n hn => absurd hn (List.not_mem_nil n))⟩

end BlockDriver
